import Mathlib

/-!
# go_gin_starter: configuration loading, sessions and the books handlers

A shallow embedding of `config.go`, `session.go`, `ctr_books.go` and the level
selection of `logger.go`, together with the parts of the Go standard library
they call (`encoding/hex`, `os.Expand`, `strings.HasPrefix`, `time.Time.After`)
and a state model of the session library.

Modelling conventions.

* A Go `string` is a Lean `String`; the library routines walk it one code unit
  at a time, which is `String.data` here.  Every comparison the routines make is
  against an ASCII character, so a non-ASCII character behaves like the bytes
  that encode it: it is never a `$`, a brace, an alphanumeric or a hex digit.
* A `[]byte` is a `List Nat`; theorems that need the elements to be bytes say
  so (`b < 256`).
* `slog.Error(...)` followed by `os.Exit(1)` is an error result that records
  which exit was taken and the configuration as it stood at that moment.
* The process environment is a lookup function from names to optional values
  (`none` = unset).
* A `panic` is an error result carrying the panic message; a handler returns
  the response it writes together with the session it leaves behind.  Logging
  calls have no effect on the results and are left out.
-/

deriving instance DecidableEq for Except

namespace GoGinStarter

/-! ## encoding/hex -/

/-- Errors returned by Go's `hex.Decode`: `InvalidByteError(c)` and `ErrLength`. -/
inductive HexError where
  | InvalidByteError (c : Char)
  | ErrLength
deriving DecidableEq, Repr

/-- Value of one hexadecimal digit, as Go's `reverseHexTable` gives it; `none`
stands for the table's `0xff` entry (not a hex digit). -/
def fromHexChar (c : Char) : Option Nat :=
  if '0'.toNat ≤ c.toNat ∧ c.toNat ≤ '9'.toNat then some (c.toNat - '0'.toNat)
  else if 'a'.toNat ≤ c.toNat ∧ c.toNat ≤ 'f'.toNat then some (c.toNat - 'a'.toNat + 10)
  else if 'A'.toNat ≤ c.toNat ∧ c.toNat ≤ 'F'.toNat then some (c.toNat - 'A'.toNat + 10)
  else none

/-- Go's `hex.Decode`: two digits per byte, stopping at the first bad digit; a
trailing single digit is checked for validity before `ErrLength` is reported. -/
def Decode : List Char → Except HexError (List Nat)
  | [] => .ok []
  | [p] =>
    match fromHexChar p with
    | none => .error (.InvalidByteError p)
    | some _ => .error .ErrLength
  | p :: q :: rest =>
    match fromHexChar p, fromHexChar q with
    | none, _ => .error (.InvalidByteError p)
    | some _, none => .error (.InvalidByteError q)
    | some a, some b =>
      match Decode rest with
      | .error e => .error e
      | .ok bs => .ok (((a <<< 4) ||| b) :: bs)

/-- A hexadecimal digit in the words of the specification: one of `0-9`, `a-f`,
`A-F`. -/
def IsHexDigit (c : Char) : Prop :=
  c ∈ "0123456789abcdefABCDEF".data

instance (c : Char) : Decidable (IsHexDigit c) := by
  unfold IsHexDigit; infer_instance

/-- Go's `hex.DecodeString`. -/
def DecodeString (s : String) : Except HexError (List Nat) :=
  Decode s.data

/-- Go's `hextable`, the lowercase digits used by the encoder. -/
def hextable : List Char := "0123456789abcdef".data

/-- Go's `hex.Encode`: `hextable[v>>4]` then `hextable[v&0x0f]` for every byte. -/
def Encode : List Nat → List Char
  | [] => []
  | v :: rest => hextable.getD (v >>> 4) '0' :: hextable.getD (v &&& 0x0f) '0' :: Encode rest

/-- Go's `hex.EncodeToString`. -/
def EncodeToString (src : List Nat) : String :=
  String.mk (Encode src)

/-! ## config.go -/

/-- The `AppConfig` struct of `config.go`. -/
structure AppConfig where
  HostPort : String := ""
  LogFile : String := ""
  LogLevel : Int := 0
  RegenerateSecureKeys : Bool := false
  SSLDisabled : Bool := false
  SSLCertFile : String := ""
  SSLKeyFile : String := ""
  CacheBustVal : String := ""
  CacheTemplates : Bool := false
  SecureCookieSigningKey : List Nat := []
  SecureCookieSigningKeyHex : String := ""
  SecureCookieEncryptionKey : List Nat := []
  SecureCookieEncryptionKeyHex : String := ""
  SecureCookieMaxAge : Int := 0
  WorkingDir : String := ""
  DebugConfig : Bool := false
deriving DecidableEq, Repr

/-- The six `slog.Error` / `os.Exit(1)` sites of `ParseSecureKeys`, in source order. -/
inductive ExitPoint where
  | signingKeyMissing
  | signingKeyDecode (err : HexError)
  | signingKeyLength
  | encryptionKeyMissing
  | encryptionKeyDecode (err : HexError)
  | encryptionKeyLength
deriving DecidableEq, Repr

/-- The message passed to `slog.Error` at each exit site. -/
def ExitPoint.message : ExitPoint → String
  | .signingKeyMissing => "No 'secure_cookie_signing_key' found in config file"
  | .signingKeyDecode _ => "Error decoding 'secure_cookie_signing_key' from hex"
  | .signingKeyLength => "Error 'secure_cookie_signing_key' must be 64 bytes long"
  | .encryptionKeyMissing => "No 'secure_cookie_encryption_key' found in config file"
  | .encryptionKeyDecode _ => "Error decoding 'secure_cookie_encryption_key' from hex"
  | .encryptionKeyLength => "Error 'secure_cookie_encryption_key' must be 64 bytes long"

/-- Whether an exit site belongs to the signing-key half of `ParseSecureKeys`. -/
def ExitPoint.onSigningKey : ExitPoint → Bool
  | .signingKeyMissing => true
  | .signingKeyDecode _ => true
  | .signingKeyLength => true
  | _ => false

/-- Whether an exit site belongs to the encryption-key half of `ParseSecureKeys`. -/
def ExitPoint.onEncryptionKey : ExitPoint → Bool
  | .encryptionKeyMissing => true
  | .encryptionKeyDecode _ => true
  | .encryptionKeyLength => true
  | _ => false

/-- A terminated run: the exit site taken and the configuration at that moment. -/
structure Exited where
  point : ExitPoint
  cfg : AppConfig
deriving DecidableEq, Repr

/-- `(*AppConfig).ParseSecureKeys`, with each `os.Exit(1)` as an error result. -/
def ParseSecureKeys (a : AppConfig) : Except Exited AppConfig :=
  if a.SecureCookieSigningKeyHex = "" then
    .error ⟨.signingKeyMissing, a⟩
  else
    match DecodeString a.SecureCookieSigningKeyHex with
    | .error err => .error ⟨.signingKeyDecode err, a⟩
    | .ok secureCookieSigningKey =>
      if secureCookieSigningKey.length ≠ 64 then
        .error ⟨.signingKeyLength, a⟩
      else
        let a1 := { a with SecureCookieSigningKey := secureCookieSigningKey }
        if a1.SecureCookieEncryptionKeyHex = "" then
          .error ⟨.encryptionKeyMissing, a1⟩
        else
          match DecodeString a1.SecureCookieEncryptionKeyHex with
          | .error err => .error ⟨.encryptionKeyDecode err, a1⟩
          | .ok secureCookieEncryptionKey =>
            if secureCookieEncryptionKey.length ≠ 32 then
              .error ⟨.encryptionKeyLength, a1⟩
            else
              .ok { a1 with SecureCookieEncryptionKey := secureCookieEncryptionKey }

/-! ## os.Expand -/

/-- Go's `os.isShellSpecialVar`. -/
def isShellSpecialVar (c : Char) : Bool :=
  c ∈ ['*', '#', '$', '@', '!', '?', '-', '0', '1', '2', '3', '4', '5', '6', '7', '8', '9']

/-- Go's `os.isAlphaNum`. -/
def isAlphaNum (c : Char) : Bool :=
  c = '_' || '0' ≤ c && c ≤ '9' || 'a' ≤ c && c ≤ 'z' || 'A' ≤ c && c ≤ 'Z'

/-- Offset of the first closing brace in the text that follows an opening brace
(the loop `for i := 1; i < len(s); i++` of `getShellName` finds it at `i = k + 1`). -/
def findClose : List Char → Option Nat
  | [] => none
  | c :: t => if c = '}' then some 0 else (findClose t).map (· + 1)

/-- The brace scan of `getShellName` on the text `t` after the opening brace:
`("", 1)` without a closing brace, `("", 2)` for an empty pair of braces, else
the text before the closing brace and its length plus the two braces. -/
def scanToClose (t : List Char) : List Char × Nat :=
  match findClose t with
  | none => ([], 1)
  | some 0 => ([], 2)
  | some (k + 1) => (t.take (k + 1), k + 3)

/-- Go's `os.getShellName` on the non-empty text `s0 :: t` that follows a `$`:
the name and the number of characters consumed. -/
def getShellName (s0 : Char) (t : List Char) : List Char × Nat :=
  if s0 = '{' then
    match t with
    | c1 :: c2 :: _ =>
      if isShellSpecialVar c1 && c2 = '}' then ([c1], 3) else scanToClose t
    | _ => scanToClose t
  else if isShellSpecialVar s0 then ([s0], 1)
  else ((s0 :: t).takeWhile isAlphaNum, ((s0 :: t).takeWhile isAlphaNum).length)

/-- The loop of Go's `os.Expand`.  The counter is the number of characters still
to be skipped because the reference before them consumed them (`j += w`); text
outside references is copied through, as `buf = append(buf, s[i:j]...)` and the
final `s[i:]` do.  A `$` that ends the string fails `j+1 < len(s)` and is copied. -/
def expandFrom (mapping : String → String) : Nat → List Char → List Char
  | _, [] => []
  | k + 1, _ :: rest => expandFrom mapping k rest
  | 0, c :: rest =>
    if c = '$' then
      match rest with
      | [] => [c]
      | s0 :: t =>
        let nw := getShellName s0 t
        (if nw.1 = [] ∧ nw.2 > 0 then []
         else if nw.1 = [] then [c]
         else (mapping (String.mk nw.1)).data) ++ expandFrom mapping nw.2 rest
    else c :: expandFrom mapping 0 rest

/-- Go's `os.Expand`. -/
def Expand (s : String) (mapping : String → String) : String :=
  String.mk (expandFrom mapping 0 s.data)

/-- The process environment: `none` for a variable that is not set. -/
abbrev Env := String → Option String

/-- Go's `os.Getenv`: the value, or the empty string when the variable is unset
(the empty name is never set). -/
def Getenv (env : Env) (key : String) : String :=
  if key.length = 0 then "" else (env key).getD ""

/-- Go's `os.ExpandEnv`. -/
def ExpandEnv (env : Env) (s : String) : String :=
  Expand s (Getenv env)

/-! ## config.go, continued -/

/-- `(*AppConfig).ParseEnvVariables`, with the environment as a parameter. -/
def ParseEnvVariables (env : Env) (a : AppConfig) : AppConfig :=
  let HostPort := ExpandEnv env a.HostPort
  let a := if HostPort ≠ "" then { a with HostPort := HostPort } else a
  let LogFile := ExpandEnv env a.LogFile
  let a := if LogFile ≠ "" then { a with LogFile := LogFile } else a
  let SSLCertFile := ExpandEnv env a.SSLCertFile
  let a := if SSLCertFile ≠ "" then { a with SSLCertFile := SSLCertFile } else a
  let SSLKeyFile := ExpandEnv env a.SSLKeyFile
  let a := if SSLKeyFile ≠ "" then { a with SSLKeyFile := SSLKeyFile } else a
  let SecureCookieSigningKeyHex := ExpandEnv env a.SecureCookieSigningKeyHex
  let a := if SecureCookieSigningKeyHex ≠ "" then
    { a with SecureCookieSigningKeyHex := SecureCookieSigningKeyHex } else a
  let SecureCookieEncryptionKeyHex := ExpandEnv env a.SecureCookieEncryptionKeyHex
  let a := if SecureCookieEncryptionKeyHex ≠ "" then
    { a with SecureCookieEncryptionKeyHex := SecureCookieEncryptionKeyHex } else a
  a

/-- The six fields that `ParseEnvVariables` expands. -/
inductive EnvField where
  | HostPort
  | LogFile
  | SSLCertFile
  | SSLKeyFile
  | SecureCookieSigningKeyHex
  | SecureCookieEncryptionKeyHex
deriving DecidableEq, Repr

/-- The value of one of the six expanded fields in a configuration. -/
def EnvField.get : EnvField → AppConfig → String
  | .HostPort, a => a.HostPort
  | .LogFile, a => a.LogFile
  | .SSLCertFile, a => a.SSLCertFile
  | .SSLKeyFile, a => a.SSLKeyFile
  | .SecureCookieSigningKeyHex, a => a.SecureCookieSigningKeyHex
  | .SecureCookieEncryptionKeyHex, a => a.SecureCookieEncryptionKeyHex

/-- The placeholder text for a variable name: a dollar sign, an opening brace,
the name, a closing brace. -/
def placeholder (name : String) : String :=
  "$\x7b" ++ name ++ "\x7d"

/-- Go's `strings.HasPrefix`: `len(s) >= len(p) && s[:len(p)] == p`. -/
def HasPrefix (s p : String) : Bool :=
  decide (s.data.length ≥ p.data.length) && decide (s.data.take p.data.length = p.data)

/-- The post-processing step of `NewAppConfigFromFile` (the `strings.HasPrefix`
test and the `fmt.Sprintf(":%s", ac.HostPort)` assignment). -/
def postProcessHostPort (ac : AppConfig) : AppConfig :=
  if ! HasPrefix ac.HostPort ":" then { ac with HostPort := ":" ++ ac.HostPort } else ac

/-! ## session.go -/

/-- An instant as `time.Time.After` compares it: seconds and nanoseconds within
the second. -/
structure Time where
  sec : Int := 0
  nsec : Nat := 0
deriving DecidableEq, Repr

/-- Go's `Time.After`: `ts > us || ts == us && t.nsec() > u.nsec()`. -/
def Time.After (t u : Time) : Bool :=
  decide (t.sec > u.sec) || decide (t.sec = u.sec) && decide (t.nsec > u.nsec)

/-- Go's `Time.Before`: `ts < us || ts == us && t.nsec() < u.nsec()`. -/
def Time.Before (t u : Time) : Bool :=
  decide (t.sec < u.sec) || decide (t.sec = u.sec) && decide (t.nsec < u.nsec)

/-- Go's `Time.Equal`: the same instant. -/
def Time.Equal (t u : Time) : Bool :=
  decide (t.sec = u.sec) && decide (t.nsec = u.nsec)

/-- The `SessionUser` struct of `session.go`; `Role` is a `uint64`. -/
structure SessionUser where
  Username : String := ""
  DN : String := ""
  FirstName : String := ""
  LastName : String := ""
  Email : String := ""
  Authenticated : Bool := false
  AuthTime : Time := {}
  AuthExpiration : Time := {}
  Role : Nat := 0
deriving DecidableEq, Repr

/-- Permission bit `SESSUSR__ADMIN = 1 << iota` with `iota = 0`. -/
def SESSUSR__ADMIN : Nat := 1 <<< 0

/-- Permission bit `SESSUSR__USER`, `1 << iota` with `iota = 1`. -/
def SESSUSR__USER : Nat := 1 <<< 1

/-- `(*SessionUser).SessionIsValid`, with `time.Now()` passed as `now`. -/
def SessionIsValid (now : Time) (s : SessionUser) : Bool :=
  if ! s.Authenticated then false
  else if now.After s.AuthExpiration then false
  else true

/-- `(*SessionUser).AddRole`: `s.Role = s.Role | b`. -/
def AddRole (s : SessionUser) (b : Nat) : SessionUser :=
  { s with Role := s.Role ||| b }

/-- `(*SessionUser).RemoveRole`: `s.Role = s.Role &^ b`, the bits of `b` cleared
within 64 bits. -/
def RemoveRole (s : SessionUser) (b : Nat) : SessionUser :=
  { s with Role := s.Role &&& ((2 ^ 64 - 1) ^^^ b) }

/-- `(*SessionUser).IsRole`: `(s.Role & b) != 0`. -/
def IsRole (s : SessionUser) (b : Nat) : Bool :=
  (s.Role &&& b) != 0

/-- `(*SessionUser).IsAdmin`. -/
def IsAdmin (s : SessionUser) : Bool :=
  IsRole s SESSUSR__ADMIN

/-! ## The session (gin-contrib/sessions over a cookie store)

The session library is not part of the repository.  Its state is modelled by
the two entries of the `Values` map that the program touches, the auth-user
value and the flash queue, by the answer the store gives to `Save`, and by the
values last written to the cookie. -/

/-- A value stored under `gin.AuthUserKey`, by dynamic type: a `*SessionUser`,
which points to a record or is the nil pointer (`none`), or a value of some
other type. -/
inductive SessionValue where
  | sessionUser (p : Option SessionUser)
  | other (typeName : String)
deriving DecidableEq, Repr

/-- A flash value: a string, or a value of another type with its `%v` rendering. -/
inductive FlashValue where
  | str (s : String)
  | other (rendered : String)
deriving DecidableEq, Repr

/-- Go's `fmt.Sprintf("%v", v)` on a flash value. -/
def FlashValue.format : FlashValue → String
  | .str s => s
  | .other rendered => rendered

/-- The entries of the session's `Values` map used by the program: the value
under `gin.AuthUserKey` (absent = `none`) and the slice under the flash key
(absent = empty). -/
structure SessionValues where
  authUser : Option SessionValue := none
  flashes : List FlashValue := []
deriving DecidableEq, Repr

/-- A session: its values in memory, the error (if any) the store answers when
asked to save given values, and the values last written to the cookie. -/
structure Session where
  values : SessionValues := {}
  saveError : SessionValues → Option String := fun _ => none
  cookie : Option SessionValues := none

/-- The library's `Session.Get(gin.AuthUserKey)`: the stored value or nil. -/
def Session.Get (s : Session) : Option SessionValue :=
  s.values.authUser

/-- The library's `Session.AddFlash`: append to the slice under the flash key. -/
def Session.AddFlash (s : Session) (value : FlashValue) : Session :=
  { s with values := { s.values with flashes := s.values.flashes ++ [value] } }

/-- The library's `Session.Flashes`: return the slice under the flash key and
delete the key. -/
def Session.Flashes (s : Session) : List FlashValue × Session :=
  (s.values.flashes, { s with values := { s.values with flashes := [] } })

/-- The library's `Session.Save`, called on a session marked as written (both
`AddFlash` and `Flashes` mark it): the store either answers an error or writes
the current values to the cookie. -/
def Session.Save (s : Session) : Option String × Session :=
  match s.saveError s.values with
  | some err => (some err, s)
  | none => (none, { s with cookie := some s.values })

/-! ## session.go, continued -/

/-- The `sessions.Options` struct: the fields that `instantiateSessionStore`
sets, and `Domain`, which it leaves at its zero value. -/
structure Options where
  Path : String := ""
  Domain : String := ""
  MaxAge : Int := 0
  Secure : Bool := false
  HttpOnly : Bool := false
deriving DecidableEq, Repr

/-- A cookie store: the key pair given to `cookie.NewStore` and its options. -/
structure Store where
  signingKey : List Nat := []
  encryptionKey : List Nat := []
  options : Options := {}
deriving DecidableEq, Repr

/-- The function `instantiateSessionStore` of `session.go`: the store built from
the two keys, with the options passed to `store.Options`. -/
def instantiateSessionStore (cfg : AppConfig) : Store :=
  { signingKey := cfg.SecureCookieSigningKey,
    encryptionKey := cfg.SecureCookieEncryptionKey,
    options :=
      { Path := "/",
        MaxAge := cfg.SecureCookieMaxAge,
        Secure := ! cfg.SSLDisabled,
        HttpOnly := true } }

/-- The function `addFlash` of `session.go`; the error result is the panic
raised when `Save` fails. -/
def addFlash (msg : String) (session : Session) : Except String Session :=
  let session := session.AddFlash (.str msg)
  match session.Save with
  | (some errsess, _) => .error errsess
  | (none, session) => .ok session

/-- The function `getFlashes` of `session.go`: the drained queue, each value
formatted with `%v`, and the session after `Save`; the error result is the
panic raised when `Save` fails. -/
def getFlashes (session : Session) : Except String (List String × Session) :=
  let fl := session.Flashes
  let fs := fl.1.map FlashValue.format
  match fl.2.Save with
  | (some errsess, _) => .error errsess
  | (none, session) => .ok (fs, session)

/-- The message of the run-time panic Go raises when a nil pointer is
dereferenced. -/
def nilDereference : String :=
  "runtime error: invalid memory address or nil pointer dereference"

/-- The function `getUser` of `session.go`: the type assertion
`val.(*SessionUser)` succeeds on every stored `*SessionUser`, the nil pointer
included, and `return *user` then dereferences it; the error result is the
panic raised by dereferencing nil. -/
def getUser (session : Session) : Except String SessionUser :=
  match session.Get with
  | some (.sessionUser user) =>
    match user with
    | some u => .ok u
    | none => .error nilDereference
  | _ => .ok {}

/-! ## ctr_books.go -/

/-- The `Book` struct. -/
structure Book where
  ID : String := ""
  Title : String := ""
  Author : String := ""
  ISBN : String := ""
deriving DecidableEq, Repr

/-- The function `getMockBooks`. -/
def getMockBooks : List Book :=
  [ { ID := "1", Title := "The Go Programming Language", Author := "Alan A. A. Donovan",
      ISBN := "978-0134190440" },
    { ID := "2", Title := "Learning Go", Author := "Jon Bodner", ISBN := "978-1492077213" },
    { ID := "3", Title := "Concurrency in Go", Author := "Katherine Cox-Buday",
      ISBN := "978-1491941294" } ]

/-- The part of `DataSourceOrchestration` that the handlers pass on. -/
structure DataSourceOrchestration where
  AppConfig : AppConfig := {}
deriving DecidableEq, Repr

/-- The anonymous struct that `route_Books_Show` hands to the `books/show`
template. -/
structure ShowView where
  AppConfig : AppConfig
  SessionUser : SessionUser
  Flash : List String
  Book : Book
deriving DecidableEq, Repr

/-- What a handler writes: `c.HTML(code, name, obj)` or `c.Redirect(code, location)`. -/
inductive Response where
  | HTML (code : Nat) (name : String) (obj : ShowView)
  | Redirect (code : Nat) (location : String)
deriving DecidableEq, Repr

/-- The status code of a response. -/
def Response.code : Response → Nat
  | .HTML code _ _ => code
  | .Redirect code _ => code

/-- Go's `http.StatusOK`. -/
def StatusOK : Nat := 200

/-- Go's `http.StatusSeeOther`. -/
def StatusSeeOther : Nat := 303

/-- Go's `http.StatusNotFound`. -/
def StatusNotFound : Nat := 404

/-- The loop of `route_Books_Show` over the books: the first book whose `ID`
equals `id`, or nil. -/
def findBook (id : String) : List Book → Option Book
  | [] => none
  | b :: rest => if b.ID = id then some b else findBook id rest

/-- The handler returned by `route_Books_Show`, on the session of the request
and the `id` path parameter; logging is left out.  An error result is a panic
raised by `getUser`, `getFlashes` or `addFlash`. -/
def route_Books_Show (dso : DataSourceOrchestration) (session : Session) (id : String) :
    Except String (Response × Session) :=
  match getUser session with
  | .error p => .error p
  | .ok user =>
    match getFlashes session with
    | .error p => .error p
    | .ok (flashes, session) =>
      match findBook id getMockBooks with
      | none =>
        match addFlash "Book not found" session with
        | .error p => .error p
        | .ok session => .ok (.Redirect StatusSeeOther "/books", session)
      | some book =>
        .ok (.HTML StatusOK "books/show"
          { AppConfig := dso.AppConfig, SessionUser := user, Flash := flashes, Book := book },
          session)

/-- The `c.PostForm(key)` call of gin on a form given as a lookup of the first
value of each key: the value, or the empty string when the key is missing. -/
def PostForm (form : String → Option String) (key : String) : String :=
  (form key).getD ""

/-- The handler returned by `route_Books_Create_POST`, on the session of the
request and the posted form; logging is left out.  An error result is a panic
raised by `addFlash`. -/
def route_Books_Create_POST (session : Session) (form : String → Option String) :
    Except String (Response × Session) :=
  let title := PostForm form "title"
  let author := PostForm form "author"
  let isbn := PostForm form "isbn"
  if title = "" ∨ author = "" ∨ isbn = "" then
    match addFlash "All fields are required" session with
    | .error p => .error p
    | .ok session => .ok (.Redirect StatusSeeOther "/books/new", session)
  else
    match addFlash ("Book '" ++ title ++ "' created successfully") session with
    | .error p => .error p
    | .ok session => .ok (.Redirect StatusSeeOther "/books", session)

/-! ## logger.go -/

/-- Go's `slog.LevelDebug`. -/
def LevelDebug : Int := -4

/-- Go's `slog.LevelInfo`. -/
def LevelInfo : Int := 0

/-- Go's `slog.LevelWarn`. -/
def LevelWarn : Int := 4

/-- Go's `slog.LevelError`. -/
def LevelError : Int := 8

/-- The `switch logLevel` of `SetupLogger`: the `slog.Level` put in the handler
options. -/
def SetupLoggerLevel (logLevel : Int) : Int :=
  if logLevel = 1 then LevelError
  else if logLevel = 2 then LevelWarn
  else if logLevel = 4 ∨ logLevel = 5 then LevelDebug
  else LevelInfo

/-- Whether a handler with minimum level `threshold` emits a record of level
`l` (slog's `Enabled`: `l >= threshold`). -/
def Enabled (threshold l : Int) : Bool :=
  decide (l ≥ threshold)

/-! ## config.go: the order of the two parsing steps -/

/-- Lines 89-93 of `NewAppConfigFromFile`: `ac.ParseEnvVariables()` followed by
`ac.ParseSecureKeys()`. -/
def parseEnvThenSecureKeys (env : Env) (ac : AppConfig) : Except Exited AppConfig :=
  ParseSecureKeys (ParseEnvVariables env ac)

/-! ## Concrete inputs used by the witnesses -/

/-- A configuration with a valid signing key and an encryption key that is not
hexadecimal. -/
def cfgBadEncryptionKey : AppConfig :=
  { SecureCookieSigningKeyHex := String.mk (List.replicate 128 'a'),
    SecureCookieEncryptionKeyHex := "zz" }

/-- An environment in which only `TEST_HOST_PORT` is set, to `9090`. -/
def envHostPort : Env :=
  fun k => if k = "TEST_HOST_PORT" then some "9090" else none

/-- An environment in which `EMPTY_VAR` is set to the empty string and nothing
else is set. -/
def envEmptyVar : Env :=
  fun k => if k = "EMPTY_VAR" then some "" else none

/-- The hard-coded configuration of the test `FallsBackWhenEnvVarsNotSet`. -/
def cfgHardCoded : AppConfig :=
  { HostPort := "8080", LogFile := "./app.log", SSLCertFile := "./cert.pem",
    SSLKeyFile := "./key.pem", SecureCookieSigningKeyHex := "original_signing_key",
    SecureCookieEncryptionKeyHex := "original_encryption_key" }

/-- A session holding two pending flash messages, over a store that never fails. -/
def sessionTwoFlashes : Session :=
  { values := { flashes := [.str "first", .other "42"] } }

/-- A session whose value under the auth-user key is a nil `*SessionUser`, as
after `session.Set(gin.AuthUserKey, (*SessionUser)(nil))`. -/
def sessionNilUser : Session :=
  { values := { authUser := some (.sessionUser none) } }

/-- A session with an empty flash queue over a size-limited store: like the
cookie codec, which refuses an encoded value of more than 4096 bytes, it
refuses values whose flash text is longer than 4096 characters. -/
def sessionSizeLimited : Session :=
  { saveError := fun v =>
      if 4096 < (v.flashes.map (fun fl => fl.format.length)).sum then
        some "securecookie: the value is too long"
      else none }

/-- A flash message of 5000 characters. -/
def longMessage : String :=
  String.mk (List.replicate 5000 'x')

/-- A form with all three fields present and a title of 5000 characters. -/
def formLongTitle : String → Option String :=
  fun k =>
    if k = "title" then some longMessage
    else if k = "author" then some "Test Author"
    else if k = "isbn" then some "978-1234567890"
    else none

/-- A form with all three fields of the valid submission in `TestBooksCreate`. -/
def formValid : String → Option String :=
  fun k =>
    if k = "title" then some "Test Book"
    else if k = "author" then some "Test Author"
    else if k = "isbn" then some "978-1234567890"
    else none

/-- The form of `TestBooksCreate/MissingTitle`: no `title` key. -/
def formMissingTitle : String → Option String :=
  fun k =>
    if k = "author" then some "Test Author"
    else if k = "isbn" then some "978-1234567890"
    else none

/-- An environment holding generated keys: `SIGNING_KEY` is 128 hex digits and
`ENCRYPTION_KEY` is 64 hex digits. -/
def envKeys : Env :=
  fun k =>
    if k = "SIGNING_KEY" then some (String.mk (List.replicate 128 'a'))
    else if k = "ENCRYPTION_KEY" then some (String.mk (List.replicate 64 'b'))
    else none

/-- A configuration whose two key fields are placeholders. -/
def cfgPlaceholderKeys : AppConfig :=
  { SecureCookieSigningKeyHex := "${SIGNING_KEY}",
    SecureCookieEncryptionKeyHex := "${ENCRYPTION_KEY}" }

/-- A configuration with a valid signing key and an encryption key of 64 bytes
(128 hex digits) instead of 32. -/
def cfgLongEncryptionKey : AppConfig :=
  { SecureCookieSigningKeyHex := String.mk (List.replicate 128 'a'),
    SecureCookieEncryptionKeyHex := String.mk (List.replicate 128 'b') }

/-! ## Facts about the hex codec -/

theorem char_eq_iff_toNat (c d : Char) : c = d ↔ c.toNat = d.toNat := by
  constructor
  · intro h; rw [h]
  · intro h
    apply Char.ext
    apply UInt32.ext
    exact h

theorem fromHexChar_eq_none_iff (c : Char) : fromHexChar c = none ↔ ¬ IsHexDigit c := by
  have e : ∀ d : Char, c = d ↔ c.toNat = d.toNat := char_eq_iff_toNat c
  unfold fromHexChar IsHexDigit
  simp only [List.mem_cons, e, List.mem_nil_iff, or_false]
  simp only [Char.reduceToNat]
  split_ifs <;> simp <;> omega

theorem Decode_error_iff (l : List Char) :
    (∃ err, Decode l = .error err) ↔ (l.length % 2 = 1 ∨ ∃ c ∈ l, fromHexChar c = none) := by
  induction l using Decode.induct with
  | case1 => simp [Decode]
  | case2 p h => simp [Decode, h]
  | case3 p v h => simp [Decode, h]
  | case4 p q rest h => simp [Decode, h]
  | case5 p q rest v h hq => simp [Decode, h, hq]
  | case6 p q rest a b hp hq err h ih =>
    simp only [Decode, hp, hq, h]
    have ih1 := ih.mp ⟨err, h⟩
    constructor
    · intro _
      rcases ih1 with h1 | ⟨c, hc, hn⟩
      · left; simp only [List.length_cons]; omega
      · right; exact ⟨c, by simp [hc], hn⟩
    · intro _; exact ⟨err, rfl⟩
  | case7 p q rest a b hp hq bs h ih =>
    simp only [Decode, hp, hq, h]
    have ih1 : ¬ (rest.length % 2 = 1 ∨ ∃ c ∈ rest, fromHexChar c = none) := by
      rw [← ih]; simp [h]
    constructor
    · intro ⟨_, he⟩; cases he
    · intro hh
      exfalso; apply ih1
      rcases hh with h1 | ⟨c, hc, hn⟩
      · left; simp only [List.length_cons] at h1; omega
      · simp only [List.mem_cons] at hc
        rcases hc with hc | hc | hc
        · rw [hc] at hn; simp_all
        · rw [hc] at hn; simp_all
        · right; exact ⟨c, hc, hn⟩

theorem Decode_length (l : List Char) (bs : List Nat) (h : Decode l = .ok bs) :
    l.length = 2 * bs.length := by
  induction l using Decode.induct generalizing bs with
  | case1 => simp [Decode] at h; subst h; rfl
  | case2 p hp => simp [Decode, hp] at h
  | case3 p v hp => simp [Decode, hp] at h
  | case4 p q rest hp => simp [Decode, hp] at h
  | case5 p q rest v hp hq => simp [Decode, hp, hq] at h
  | case6 p q rest a b hp hq err hr ih => simp [Decode, hp, hq, hr] at h
  | case7 p q rest a b hp hq bs1 hr ih =>
    simp only [Decode, hp, hq, hr, Except.ok.injEq] at h
    subst h
    have := ih bs1 hr
    simp only [List.length_cons]; omega

set_option maxRecDepth 100000 in
theorem hex_byte_roundtrip : ∀ v, v < 256 →
    fromHexChar (hextable.getD (v >>> 4) '0') = some (v >>> 4) ∧
    fromHexChar (hextable.getD (v &&& 0x0f) '0') = some (v &&& 0x0f) ∧
    ((v >>> 4) <<< 4) ||| (v &&& 0x0f) = v := by
  decide

theorem Decode_Encode (s : List Nat) (hs : ∀ b ∈ s, b < 256) : Decode (Encode s) = .ok s := by
  induction s with
  | nil => rfl
  | cons v rest ih =>
    obtain ⟨h1, h2, h3⟩ := hex_byte_roundtrip v (hs v (by simp))
    have ih1 := ih (fun b hb => hs b (by simp [hb]))
    simp only [Encode, Decode, h1, h2, ih1, h3]

theorem Encode_length (s : List Nat) : (Encode s).length = 2 * s.length := by
  induction s with
  | nil => rfl
  | cons v rest ih => simp only [Encode, List.length_cons, ih]; omega

theorem Decode_error_iff_not_hex (l : List Char) :
    (∃ err, Decode l = .error err) ↔ (l.length % 2 = 1 ∨ ∃ c ∈ l, ¬ IsHexDigit c) := by
  rw [Decode_error_iff]
  simp only [fromHexChar_eq_none_iff]

theorem Decode_ok_valid (l : List Char) (bs : List Nat) (h : Decode l = .ok bs) :
    ¬ (l.length % 2 = 1 ∨ ∃ c ∈ l, ¬ IsHexDigit c) := by
  rw [← Decode_error_iff_not_hex]
  intro ⟨err, he⟩
  rw [h] at he
  cases he

/-! ## ParseSecureKeys -/

/-- The second half of `ParseSecureKeys`, reached once the signing key has been
stored: every exit it takes is on the encryption key. -/
theorem ParseSecureKeys_of_signing_ok (a : AppConfig) (bs : List Nat)
    (hd : DecodeString a.SecureCookieSigningKeyHex = .ok bs) (hl : bs.length = 64) :
    ParseSecureKeys a =
      (if a.SecureCookieEncryptionKeyHex = "" then
        .error ⟨.encryptionKeyMissing, { a with SecureCookieSigningKey := bs }⟩
      else
        match DecodeString a.SecureCookieEncryptionKeyHex with
        | .error err => .error ⟨.encryptionKeyDecode err, { a with SecureCookieSigningKey := bs }⟩
        | .ok eb =>
          if eb.length ≠ 32 then
            .error ⟨.encryptionKeyLength, { a with SecureCookieSigningKey := bs }⟩
          else
            .ok { a with SecureCookieSigningKey := bs, SecureCookieEncryptionKey := eb }) := by
  have h0 : a.SecureCookieSigningKeyHex ≠ "" := by
    intro h
    rw [h] at hd
    have : bs = [] := by
      simp [DecodeString, Decode] at hd
      exact hd
    rw [this] at hl
    simp at hl
  simp only [ParseSecureKeys, h0, hd, hl]
  simp

/-- C1: `ParseSecureKeys` exits on the signing key exactly when the signing-key
hex field is empty, or has odd length or a character that is not a hex digit,
or decodes to a byte sequence whose length is not 64; whenever it exits on the
signing key, `SecureCookieSigningKey` is as it was before the call. -/
theorem ParseSecureKeys_signing_failure_iff (a : AppConfig) :
    ((∃ x, ParseSecureKeys a = .error x ∧ x.point.onSigningKey = true) ↔
      (a.SecureCookieSigningKeyHex = "" ∨
        (a.SecureCookieSigningKeyHex.data.length % 2 = 1 ∨
          ∃ c ∈ a.SecureCookieSigningKeyHex.data, ¬ IsHexDigit c) ∨
        ∃ bs, DecodeString a.SecureCookieSigningKeyHex = .ok bs ∧ bs.length ≠ 64)) ∧
    (∀ x, ParseSecureKeys a = .error x → x.point.onSigningKey = true →
      x.cfg.SecureCookieSigningKey = a.SecureCookieSigningKey) := by
  by_cases h0 : a.SecureCookieSigningKeyHex = ""
  · simp [ParseSecureKeys, h0, ExitPoint.onSigningKey]
  · cases hd : DecodeString a.SecureCookieSigningKeyHex with
    | error err =>
      have hv := (Decode_error_iff_not_hex _).mp ⟨err, hd⟩
      simp only [ParseSecureKeys, h0, hd]
      simp only [if_false, Except.error.injEq, false_or, reduceCtorEq, false_and, exists_false,
        or_false]
      refine ⟨⟨fun _ => hv, fun _ => ⟨_, rfl, rfl⟩⟩, ?_⟩
      intro x hx _
      rw [← hx]
    | ok bs =>
      by_cases hl : bs.length = 64
      · rw [ParseSecureKeys_of_signing_ok a bs hd hl]
        have hv := Decode_ok_valid _ _ hd
        constructor
        · constructor
          · intro ⟨x, hx, hs⟩
            exfalso
            split at hx
            · cases hx; simp [ExitPoint.onSigningKey] at hs
            · split at hx
              · cases hx; simp [ExitPoint.onSigningKey] at hs
              · split at hx
                · cases hx; simp [ExitPoint.onSigningKey] at hs
                · cases hx
          · intro h
            exfalso
            rcases h with h | h | ⟨bs1, h1, h2⟩
            · exact h0 h
            · exact hv h
            · cases h1; exact h2 hl
        · intro x hx hs
          exfalso
          split at hx
          · cases hx; simp [ExitPoint.onSigningKey] at hs
          · split at hx
            · cases hx; simp [ExitPoint.onSigningKey] at hs
            · split at hx
              · cases hx; simp [ExitPoint.onSigningKey] at hs
              · cases hx
      · simp only [ParseSecureKeys, h0, hd]
        simp only [if_false, ne_eq, hl, not_false_eq_true, if_true, Except.error.injEq,
          Except.ok.injEq, false_or]
        refine ⟨⟨fun _ => Or.inr ⟨bs, rfl, hl⟩, fun _ => ⟨_, rfl, rfl⟩⟩, ?_⟩
        intro x hx _
        rw [← hx]

/-- C2: for a configuration whose signing key is valid (it decodes to 64
bytes), `ParseSecureKeys` exits on the encryption key exactly when the
encryption-key hex field is empty, or has odd length or a character that is
not a hex digit, or decodes to a byte sequence whose length is not 32. -/
theorem ParseSecureKeys_encryption_failure_iff (a : AppConfig)
    (hs : ∃ bs, DecodeString a.SecureCookieSigningKeyHex = .ok bs ∧ bs.length = 64) :
    (∃ x, ParseSecureKeys a = .error x ∧ x.point.onEncryptionKey = true) ↔
      (a.SecureCookieEncryptionKeyHex = "" ∨
        (a.SecureCookieEncryptionKeyHex.data.length % 2 = 1 ∨
          ∃ c ∈ a.SecureCookieEncryptionKeyHex.data, ¬ IsHexDigit c) ∨
        ∃ bs, DecodeString a.SecureCookieEncryptionKeyHex = .ok bs ∧ bs.length ≠ 32) := by
  obtain ⟨sb, hd, hl⟩ := hs
  rw [ParseSecureKeys_of_signing_ok a sb hd hl]
  by_cases h0 : a.SecureCookieEncryptionKeyHex = ""
  · simp [h0, ExitPoint.onEncryptionKey]
  · cases he : DecodeString a.SecureCookieEncryptionKeyHex with
    | error err =>
      have hv := (Decode_error_iff_not_hex _).mp ⟨err, he⟩
      simp only [h0, if_false]
      exact ⟨fun _ => Or.inr (Or.inl hv), fun _ => ⟨_, rfl, rfl⟩⟩
    | ok eb =>
      have hv := Decode_ok_valid _ _ he
      by_cases hl2 : eb.length = 32
      · simp only [h0, if_false, ne_eq, hl2, not_true_eq_false]
        constructor
        · intro ⟨x, hx, _⟩; cases hx
        · intro h
          exfalso
          rcases h with h | h | ⟨bs1, h1, h2⟩
          · exact h
          · exact hv h
          · cases h1; exact h2 hl2
      · simp only [h0, if_false, ne_eq, hl2, not_false_eq_true, if_true]
        exact ⟨fun _ => Or.inr (Or.inr ⟨eb, rfl, hl2⟩), fun _ => ⟨_, rfl, rfl⟩⟩

set_option maxRecDepth 100000 in
theorem ParseSecureKeys_encryption_failure_iff_witness :
    (∃ bs, DecodeString cfgBadEncryptionKey.SecureCookieSigningKeyHex = .ok bs ∧
      bs.length = 64) ∧
    ((∃ x, ParseSecureKeys cfgBadEncryptionKey = .error x ∧ x.point.onEncryptionKey = true) ↔
      (cfgBadEncryptionKey.SecureCookieEncryptionKeyHex = "" ∨
        (cfgBadEncryptionKey.SecureCookieEncryptionKeyHex.data.length % 2 = 1 ∨
          ∃ c ∈ cfgBadEncryptionKey.SecureCookieEncryptionKeyHex.data, ¬ IsHexDigit c) ∨
        ∃ bs, DecodeString cfgBadEncryptionKey.SecureCookieEncryptionKeyHex = .ok bs ∧
          bs.length ≠ 32)) :=
  ⟨⟨List.replicate 64 170, by decide, by decide⟩,
    ParseSecureKeys_encryption_failure_iff cfgBadEncryptionKey
      ⟨List.replicate 64 170, by decide, by decide⟩⟩

/-- C3: for every 64-byte `s` and 32-byte `e`, a configuration whose hex fields
are `hex.EncodeToString s` and `hex.EncodeToString e` (128 and 64 characters)
is accepted by `ParseSecureKeys`, which stores `s` and `e` as the two keys and
changes nothing else. -/
theorem ParseSecureKeys_generated_keys (a : AppConfig) (s e : List Nat)
    (hs : s.length = 64) (he : e.length = 32)
    (hsb : ∀ b ∈ s, b < 256) (heb : ∀ b ∈ e, b < 256) :
    (EncodeToString s).length = 128 ∧ (EncodeToString e).length = 64 ∧
    ParseSecureKeys { a with SecureCookieSigningKeyHex := EncodeToString s,
                             SecureCookieEncryptionKeyHex := EncodeToString e } =
      .ok { a with SecureCookieSigningKeyHex := EncodeToString s,
                   SecureCookieEncryptionKeyHex := EncodeToString e,
                   SecureCookieSigningKey := s,
                   SecureCookieEncryptionKey := e } := by
  refine ⟨?_, ?_, ?_⟩
  · simp only [EncodeToString, String.length, Encode_length, hs]
  · simp only [EncodeToString, String.length, Encode_length, he]
  · have hd : DecodeString (EncodeToString s) = .ok s := Decode_Encode s hsb
    have hd2 : DecodeString (EncodeToString e) = .ok e := Decode_Encode e heb
    rw [ParseSecureKeys_of_signing_ok _ s hd hs]
    have hne : EncodeToString e ≠ "" := by
      intro h
      have h1 : (EncodeToString e).length = 0 := by rw [h]; rfl
      simp only [EncodeToString, String.length, Encode_length, he] at h1
      omega
    simp only [hne, if_false, hd2, ne_eq, he, not_true_eq_false]

theorem ParseSecureKeys_generated_keys_witness :
    (List.range 64).length = 64 ∧ (List.range 32).length = 32 ∧
    (∀ b ∈ List.range 64, b < 256) ∧ (∀ b ∈ List.range 32, b < 256) ∧
    ((EncodeToString (List.range 64)).length = 128 ∧
     (EncodeToString (List.range 32)).length = 64 ∧
     ParseSecureKeys { ({} : AppConfig) with
         SecureCookieSigningKeyHex := EncodeToString (List.range 64),
         SecureCookieEncryptionKeyHex := EncodeToString (List.range 32) } =
       .ok { ({} : AppConfig) with
         SecureCookieSigningKeyHex := EncodeToString (List.range 64),
         SecureCookieEncryptionKeyHex := EncodeToString (List.range 32),
         SecureCookieSigningKey := List.range 64,
         SecureCookieEncryptionKey := List.range 32 }) :=
  ⟨by decide, by decide, by decide, by decide,
    ParseSecureKeys_generated_keys {} (List.range 64) (List.range 32)
      (by decide) (by decide) (by decide) (by decide)⟩

/-! ## Facts about os.Expand -/

theorem expandFrom_nil (m : String → String) (k : Nat) : expandFrom m k [] = [] := by
  cases k <;> rfl

theorem expandFrom_skip (m : String → String) (k : Nat) (l : List Char) :
    expandFrom m k l = expandFrom m 0 (l.drop k) := by
  induction l generalizing k with
  | nil => simp [expandFrom_nil]
  | cons c rest ih =>
    cases k with
    | zero => rfl
    | succ k =>
      rw [expandFrom, List.drop_succ_cons]
      exact ih k

theorem expandFrom_no_dollar_append (m : String → String) (pre rest : List Char)
    (h : '$' ∉ pre) : expandFrom m 0 (pre ++ rest) = pre ++ expandFrom m 0 rest := by
  induction pre with
  | nil => rfl
  | cons c t ih =>
    have hc : c ≠ '$' := fun e => h (by simp [e])
    have ht : '$' ∉ t := fun e => h (by simp [e])
    have e := ih ht
    simp only [List.cons_append, expandFrom, hc, if_false]
    exact congrArg (c :: ·) e

theorem expandFrom_no_dollar (m : String → String) (l : List Char) (h : '$' ∉ l) :
    expandFrom m 0 l = l := by
  have := expandFrom_no_dollar_append m l [] h
  simpa [expandFrom_nil] using this

theorem findClose_append (var post : List Char) (h : '}' ∉ var) :
    findClose (var ++ '}' :: post) = some var.length := by
  induction var with
  | nil => simp [findClose]
  | cons c t ih =>
    have hc : c ≠ '}' := fun e => h (by simp [e])
    have ht : '}' ∉ t := fun e => h (by simp [e])
    simp [findClose, hc, ih ht]

theorem scanToClose_append (var post : List Char) (h : '}' ∉ var) :
    scanToClose (var ++ '}' :: post) = (var, var.length + 2) := by
  unfold scanToClose
  rw [findClose_append var post h]
  cases var with
  | nil => rfl
  | cons c t => simp

theorem getShellName_brace (var post : List Char) (h : '}' ∉ var) :
    getShellName '{' (var ++ '}' :: post) = (var, var.length + 2) := by
  unfold getShellName
  simp only [if_true]
  split
  · rename_i c1 c2 tl heq
    split
    · rename_i hsp
      simp only [Bool.and_eq_true, decide_eq_true_eq] at hsp
      obtain ⟨hc1, hc2⟩ := hsp
      cases var with
      | nil =>
        simp only [List.nil_append, List.cons.injEq] at heq
        rw [← heq.1] at hc1
        exact absurd hc1 (by decide)
      | cons v vt =>
        cases vt with
        | nil =>
          simp only [List.cons_append, List.nil_append, List.cons.injEq] at heq
          obtain ⟨h1, _⟩ := heq
          simp [h1]
        | cons v2 vt2 =>
          simp only [List.cons_append, List.cons.injEq] at heq
          exfalso
          apply h
          simp [heq.2.1, hc2]
    · exact scanToClose_append var post h
  · exact scanToClose_append var post h

theorem drop_past_close (var post : List Char) (c : Char) :
    List.drop (var.length + 1) (var ++ c :: post) = post := by
  induction var with
  | nil => rfl
  | cons v t ih => simp

theorem Getenv_empty_name (env : Env) : Getenv env (String.mk []) = "" := by
  simp [Getenv]

theorem expandFrom_brace_ref (env : Env) (var post : List Char) (h : '}' ∉ var) :
    expandFrom (Getenv env) 0 ('$' :: '{' :: (var ++ '}' :: post)) =
      (Getenv env (String.mk var)).data ++ expandFrom (Getenv env) 0 post := by
  simp only [expandFrom, if_true, getShellName_brace var post h]
  rw [expandFrom_skip, drop_past_close var post '}']
  cases var with
  | nil =>
    have e : Getenv env (String.mk []) = "" := Getenv_empty_name env
    simp [e]
  | cons v t => simp

theorem String_length_eq_zero (s : String) : s.length = 0 ↔ s = "" := by
  constructor
  · intro h
    apply String.ext
    exact List.length_eq_zero.mp h
  · intro h; rw [h]; rfl

theorem ExpandEnv_no_dollar (env : Env) (s : String) (h : '$' ∉ s.data) :
    ExpandEnv env s = s := by
  unfold ExpandEnv Expand
  rw [expandFrom_no_dollar _ _ h]

/-- Expansion of a value whose first dollar sign opens a brace reference: the
text before it is kept, the reference becomes the variable's value, and the
text after it is expanded in turn. -/
theorem ExpandEnv_reference (env : Env) (pre VAR post : String)
    (hpre : '$' ∉ pre.data) (hbrace : '}' ∉ VAR.data) :
    ExpandEnv env (pre ++ placeholder VAR ++ post) =
      pre ++ Getenv env VAR ++ ExpandEnv env post := by
  unfold ExpandEnv Expand placeholder
  apply String.ext
  simp only [String.data_append]
  have e3 : pre.data ++ (['$', '{'] ++ VAR.data ++ ['}']) ++ post.data =
      pre.data ++ ('$' :: '{' :: (VAR.data ++ '}' :: post.data)) := by simp
  rw [e3, expandFrom_no_dollar_append _ _ _ hpre, expandFrom_brace_ref env _ _ hbrace]
  simp

theorem ExpandEnv_placeholder (env : Env) (VAR : String) (hbrace : '}' ∉ VAR.data) :
    ExpandEnv env (placeholder VAR) = Getenv env VAR := by
  have h := ExpandEnv_reference env "" VAR "" (by simp) hbrace
  have e : ExpandEnv env "" = "" := rfl
  simpa [e] using h

/-! ## ParseEnvVariables -/

/-- Each expanded field depends on its own original value only: it becomes its
expansion when that is non-empty and keeps its value otherwise. -/
theorem ParseEnvVariables_get (env : Env) (a : AppConfig) (f : EnvField) :
    f.get (ParseEnvVariables env a) =
      if ExpandEnv env (f.get a) ≠ "" then ExpandEnv env (f.get a) else f.get a := by
  cases f <;>
    simp only [ParseEnvVariables, EnvField.get, apply_ite AppConfig.HostPort,
      apply_ite AppConfig.LogFile, apply_ite AppConfig.SSLCertFile,
      apply_ite AppConfig.SSLKeyFile, apply_ite AppConfig.SecureCookieSigningKeyHex,
      apply_ite AppConfig.SecureCookieEncryptionKeyHex, ite_self]

/-- C4: for each of the six expanded fields, if the field holds the placeholder
for a variable `VAR` (a non-empty name without a closing brace) that is set to
a non-empty value `v`, the field equals `v` after `ParseEnvVariables`. -/
theorem ParseEnvVariables_placeholder_set (f : EnvField) (env : Env) (a : AppConfig)
    (VAR v : String) (hname : VAR ≠ "") (hbrace : '}' ∉ VAR.data)
    (hset : env VAR = some v) (hv : v ≠ "") (hf : f.get a = placeholder VAR) :
    f.get (ParseEnvVariables env a) = v := by
  have hlen : VAR.length ≠ 0 := fun h => hname ((String_length_eq_zero VAR).mp h)
  have hx : ExpandEnv env (f.get a) = v := by
    rw [hf, ExpandEnv_placeholder env VAR hbrace]
    simp [Getenv, hlen, hset]
  rw [ParseEnvVariables_get, hx]
  simp [hv]

theorem ParseEnvVariables_placeholder_set_witness :
    placeholder "TEST_HOST_PORT" = "${TEST_HOST_PORT}" ∧
    EnvField.get .HostPort (ParseEnvVariables envHostPort { HostPort := "${TEST_HOST_PORT}" })
      = "9090" :=
  ⟨by decide,
    ParseEnvVariables_placeholder_set .HostPort envHostPort { HostPort := "${TEST_HOST_PORT}" }
      "TEST_HOST_PORT" "9090" (by decide) (by decide) (by decide) (by decide) (by decide)⟩

/-- C5: for each of the six expanded fields, if the environment expansion of
the field value is empty, `ParseEnvVariables` leaves the field as it was; in
particular a field holding the placeholder of a variable that is unset or set
to the empty string still holds that placeholder afterwards. -/
theorem ParseEnvVariables_empty_expansion (f : EnvField) (env : Env) (a : AppConfig) :
    (ExpandEnv env (f.get a) = "" → f.get (ParseEnvVariables env a) = f.get a) ∧
    (∀ VAR : String, '}' ∉ VAR.data → (env VAR = none ∨ env VAR = some "") →
      f.get a = placeholder VAR →
      ExpandEnv env (f.get a) = "" ∧ f.get (ParseEnvVariables env a) = placeholder VAR) := by
  have key : ExpandEnv env (f.get a) = "" → f.get (ParseEnvVariables env a) = f.get a := by
    intro h
    rw [ParseEnvVariables_get, h]
    simp
  refine ⟨key, ?_⟩
  intro VAR hbrace hunset hf
  have hx : ExpandEnv env (f.get a) = "" := by
    rw [hf, ExpandEnv_placeholder env VAR hbrace]
    unfold Getenv
    rcases hunset with h | h <;> simp [h]
  exact ⟨hx, by rw [key hx, hf]⟩

theorem ParseEnvVariables_empty_expansion_witness :
    placeholder "EMPTY_VAR" = "${EMPTY_VAR}" ∧
    EnvField.get .HostPort (ParseEnvVariables envEmptyVar { HostPort := "${EMPTY_VAR}" })
      = "${EMPTY_VAR}" :=
  ⟨by decide,
    ((ParseEnvVariables_empty_expansion .HostPort envEmptyVar
      { HostPort := "${EMPTY_VAR}" }).2 "EMPTY_VAR" (by decide) (Or.inr (by decide))
      (by decide)).2⟩

/-- C6, as stated, fails: with `VAR` unset, a `HostPort` of `prefix-${VAR}` does
not keep its original text; it becomes `prefix-`. -/
theorem ParseEnvVariables_embedded_reference_counterexample :
    ("prefix-" ++ placeholder "VAR" ++ "" = "prefix-${VAR}") ∧
    EnvField.get .HostPort (ParseEnvVariables (fun _ => none) { HostPort := "prefix-${VAR}" })
      = "prefix-" ∧
    ¬ (∀ (f : EnvField) (env : Env) (a : AppConfig) (pre VAR post : String),
        (env VAR = none ∨ env VAR = some "") →
        f.get a = pre ++ placeholder VAR ++ post →
        f.get (ParseEnvVariables env a) = f.get a) := by
  refine ⟨by decide, by decide, ?_⟩
  intro h
  have := h .HostPort (fun _ => none) { HostPort := "prefix-${VAR}" } "prefix-" "VAR" ""
    (Or.inl rfl) (by decide)
  revert this
  decide

/-- C6, amended: for each of the six expanded fields, if the field value
contains the placeholder of a variable that is unset or set to the empty
string, `ParseEnvVariables` leaves the field equal to its original text if and
only if the expansion of the whole value is empty or is the value itself;
whenever the expansion is not empty the field becomes the expansion.  When no
dollar sign precedes the reference and the name holds no closing brace, the
expansion is the text before the reference followed by the expansion of the
text after it. -/
theorem ParseEnvVariables_embedded_reference (f : EnvField) (env : Env) (a : AppConfig)
    (pre VAR post : String) (hunset : env VAR = none ∨ env VAR = some "")
    (hf : f.get a = pre ++ placeholder VAR ++ post) :
    (f.get (ParseEnvVariables env a) = f.get a ↔
      (ExpandEnv env (f.get a) = "" ∨ ExpandEnv env (f.get a) = f.get a)) ∧
    (ExpandEnv env (f.get a) ≠ "" →
      f.get (ParseEnvVariables env a) = ExpandEnv env (f.get a)) ∧
    ('$' ∉ pre.data → '}' ∉ VAR.data →
      ExpandEnv env (f.get a) = pre ++ ExpandEnv env post) := by
  refine ⟨?_, ?_, ?_⟩
  · rw [ParseEnvVariables_get]
    by_cases h : ExpandEnv env (f.get a) = ""
    · simp [h]
    · simp only [ne_eq, h, not_false_eq_true, if_true, false_or]
  · intro h
    rw [ParseEnvVariables_get]
    simp [h]
  · intro hpre hbrace
    have hg : Getenv env VAR = "" := by
      unfold Getenv
      rcases hunset with h | h <;> simp [h]
    rw [hf, ExpandEnv_reference env pre VAR post hpre hbrace, hg]
    simp

theorem ParseEnvVariables_embedded_reference_witness :
    (EnvField.get .LogFile (ParseEnvVariables (fun _ => none) { LogFile := "prefix-${VAR}" })
        = EnvField.get .LogFile { LogFile := "prefix-${VAR}" } ↔
      (ExpandEnv (fun _ => none) (EnvField.get .LogFile { LogFile := "prefix-${VAR}" }) = "" ∨
        ExpandEnv (fun _ => none) (EnvField.get .LogFile { LogFile := "prefix-${VAR}" })
          = EnvField.get .LogFile { LogFile := "prefix-${VAR}" })) ∧
    (ExpandEnv (fun _ => none) (EnvField.get .LogFile { LogFile := "prefix-${VAR}" }) ≠ "" →
      EnvField.get .LogFile (ParseEnvVariables (fun _ => none) { LogFile := "prefix-${VAR}" })
        = ExpandEnv (fun _ => none) (EnvField.get .LogFile { LogFile := "prefix-${VAR}" })) ∧
    ('$' ∉ ("prefix-" : String).data → '}' ∉ ("VAR" : String).data →
      ExpandEnv (fun _ => none) (EnvField.get .LogFile { LogFile := "prefix-${VAR}" })
        = "prefix-" ++ ExpandEnv (fun _ => none) "") :=
  ParseEnvVariables_embedded_reference .LogFile (fun _ => none) { LogFile := "prefix-${VAR}" }
    "prefix-" "VAR" "" (Or.inl rfl) (by decide)

/-- The field can keep its text although the expansion is not empty: with `VAR`
unset and `X` set to the field's own text, the expansion of `${VAR}$X` is that
text again. -/
theorem ParseEnvVariables_self_expansion :
    ExpandEnv (fun k => if k = "X" then some "${VAR}$X" else none) "${VAR}$X" = "${VAR}$X" ∧
    EnvField.get .HostPort
      (ParseEnvVariables (fun k => if k = "X" then some "${VAR}$X" else none)
        { HostPort := "${VAR}$X" }) = "${VAR}$X" := by
  decide

/-- C7: a configuration whose six expanded fields contain no dollar sign is
left unchanged by `ParseEnvVariables`, whatever the environment holds. -/
theorem ParseEnvVariables_no_dollar (env : Env) (a : AppConfig)
    (h : ∀ f : EnvField, '$' ∉ (f.get a).data) :
    ParseEnvVariables env a = a ∧ ∀ f : EnvField, f.get (ParseEnvVariables env a) = f.get a := by
  have h1 := ExpandEnv_no_dollar env _ (h .HostPort)
  have h2 := ExpandEnv_no_dollar env _ (h .LogFile)
  have h3 := ExpandEnv_no_dollar env _ (h .SSLCertFile)
  have h4 := ExpandEnv_no_dollar env _ (h .SSLKeyFile)
  have h5 := ExpandEnv_no_dollar env _ (h .SecureCookieSigningKeyHex)
  have h6 := ExpandEnv_no_dollar env _ (h .SecureCookieEncryptionKeyHex)
  simp only [EnvField.get] at h1 h2 h3 h4 h5 h6
  have e : ParseEnvVariables env a = a := by
    simp only [ParseEnvVariables, h1, h2, h3, h4, h5, h6, apply_ite AppConfig.HostPort,
      apply_ite AppConfig.LogFile, apply_ite AppConfig.SSLCertFile,
      apply_ite AppConfig.SSLKeyFile, apply_ite AppConfig.SecureCookieSigningKeyHex,
      apply_ite AppConfig.SecureCookieEncryptionKeyHex, ite_self]
  exact ⟨e, fun f => by rw [e]⟩

theorem ParseEnvVariables_no_dollar_witness :
    ParseEnvVariables envHostPort cfgHardCoded = cfgHardCoded ∧
    ∀ f : EnvField, f.get (ParseEnvVariables envHostPort cfgHardCoded) = f.get cfgHardCoded :=
  ParseEnvVariables_no_dollar envHostPort cfgHardCoded (by intro f; cases f <;> decide)

/-! ## Host:port post-processing -/

theorem HasPrefix_colon_iff (h : String) : HasPrefix h ":" = true ↔ ∃ r : String, h = ":" ++ r := by
  unfold HasPrefix
  have e : (":" : String).data = [':'] := rfl
  rw [e]
  constructor
  · intro hp
    simp only [List.length_singleton, ge_iff_le, Bool.and_eq_true, decide_eq_true_eq] at hp
    obtain ⟨_, ht⟩ := hp
    rcases hd : h.data with _ | ⟨c, t⟩
    · rw [hd] at ht; simp at ht
    · rw [hd] at ht
      simp only [List.take_succ_cons, List.take_zero, List.cons.injEq, and_true] at ht
      refine ⟨String.mk t, ?_⟩
      apply String.ext
      rw [hd, ht, String.data_append, e]
      rfl
  · intro ⟨r, hr⟩
    rw [hr, String.data_append, e]
    simp

/-- C8: the post-processing step yields a `HostPort` that begins with a colon:
the input itself when it already begins with a colon, and a colon followed by
the input otherwise (so the empty string becomes a single colon); no other
field changes, and applying the step twice is the same as applying it once. -/
theorem postProcessHostPort_leading_colon (ac : AppConfig) :
    (∃ r : String, (postProcessHostPort ac).HostPort = ":" ++ r) ∧
    ((∃ r : String, ac.HostPort = ":" ++ r) →
      (postProcessHostPort ac).HostPort = ac.HostPort) ∧
    ((¬ ∃ r : String, ac.HostPort = ":" ++ r) →
      (postProcessHostPort ac).HostPort = ":" ++ ac.HostPort) ∧
    (ac.HostPort = "" → (postProcessHostPort ac).HostPort = ":") ∧
    postProcessHostPort ac = { ac with HostPort := (postProcessHostPort ac).HostPort } ∧
    postProcessHostPort (postProcessHostPort ac) = postProcessHostPort ac := by
  by_cases hp : HasPrefix ac.HostPort ":" = true
  · have hr := (HasPrefix_colon_iff _).mp hp
    have e : postProcessHostPort ac = ac := by simp [postProcessHostPort, hp]
    refine ⟨by rw [e]; exact hr, fun _ => by rw [e], fun hn => absurd hr hn, ?_, by rw [e], ?_⟩
    · intro h0
      rw [h0] at hp
      exact absurd hp (by decide)
    · rw [e, e]
  · have hn : ¬ ∃ r : String, ac.HostPort = ":" ++ r := fun hr => hp ((HasPrefix_colon_iff _).mpr hr)
    have e : postProcessHostPort ac = { ac with HostPort := ":" ++ ac.HostPort } := by
      simp [postProcessHostPort, hp]
    have hp2 : HasPrefix (":" ++ ac.HostPort) ":" = true :=
      (HasPrefix_colon_iff _).mpr ⟨ac.HostPort, rfl⟩
    refine ⟨by rw [e]; exact ⟨ac.HostPort, rfl⟩, fun hr => absurd hr hn, fun _ => by rw [e],
      ?_, by rw [e], ?_⟩
    · intro h0
      rw [e, h0]
      rfl
    · rw [e]
      simp [postProcessHostPort, hp2]

theorem postProcessHostPort_leading_colon_witness :
    (postProcessHostPort { HostPort := "8080" }).HostPort = ":8080" ∧
    (postProcessHostPort { HostPort := ":8080" }).HostPort = ":8080" ∧
    (postProcessHostPort { HostPort := "" }).HostPort = ":" ∧
    (∃ r : String, (postProcessHostPort { HostPort := "8080" }).HostPort = ":" ++ r) :=
  ⟨by decide, by decide, by decide,
    (postProcessHostPort_leading_colon { HostPort := "8080" }).1⟩

/-! ## Session validity and roles -/

/-- C9, as stated, fails: an authenticated session checked at the very instant
of its expiration is valid, although that instant is not before the expiration. -/
theorem SessionIsValid_at_expiration_counterexample :
    SessionIsValid { sec := 100, nsec := 0 }
      { Authenticated := true, AuthExpiration := { sec := 100, nsec := 0 } } = true ∧
    Time.Before { sec := 100, nsec := 0 } { sec := 100, nsec := 0 } = false ∧
    ¬ (∀ (now : Time) (s : SessionUser),
        SessionIsValid now s = true ↔
          (s.Authenticated = true ∧ now.Before s.AuthExpiration = true)) := by
  refine ⟨by decide, by decide, ?_⟩
  intro h
  have := (h { sec := 100, nsec := 0 }
    { Authenticated := true, AuthExpiration := { sec := 100, nsec := 0 } }).mp (by decide)
  revert this
  decide

/-- C9, amended: `SessionIsValid` returns true exactly when `Authenticated` is
true and `now` is not after `AuthExpiration`, that is, `now` is before the
expiration or is the expiration instant itself; it returns false when the
session is not authenticated or `now` is after the expiration. -/
theorem SessionIsValid_iff (now : Time) (s : SessionUser) :
    (SessionIsValid now s = true ↔
      (s.Authenticated = true ∧
        (now.Before s.AuthExpiration = true ∨ now.Equal s.AuthExpiration = true))) ∧
    (SessionIsValid now s = false ↔
      (s.Authenticated = false ∨ now.After s.AuthExpiration = true)) := by
  obtain ⟨ns, nn⟩ := now
  rcases hs : s.AuthExpiration with ⟨es, en⟩
  unfold SessionIsValid Time.Before Time.After Time.Equal
  rw [hs]
  cases s.Authenticated
  · simp
  · simp only [Bool.not_true, Bool.false_eq_true, if_false, Time.mk.injEq]
    constructor
    · constructor
      · intro h
        split at h
        · cases h
        · rename_i hn
          simp only [Bool.or_eq_true, Bool.and_eq_true, decide_eq_true_eq, not_or, not_and] at hn ⊢
          refine ⟨trivial, ?_⟩
          omega
      · intro ⟨_, h⟩
        simp only [Bool.or_eq_true, Bool.and_eq_true, decide_eq_true_eq] at h ⊢
        split
        · rename_i hn
          exfalso
          omega
        · rfl
    · simp only [Bool.true_eq_false, false_or]
      split
      · rename_i hn
        simp only [true_iff]
        exact hn
      · rename_i hn
        simp only [Bool.true_eq_false, false_iff]
        exact hn

/-- C10: for every session user and every non-zero mask `b` (in particular
every single role bit `2^k`), `IsRole b` is true after `AddRole b`; after
`AddRole SESSUSR__ADMIN`, `IsAdmin` is true. -/
theorem AddRole_IsRole (s : SessionUser) (b : Nat) (hb : b ≠ 0) :
    IsRole (AddRole s b) b = true ∧
    (∀ k : Nat, IsRole (AddRole s (2 ^ k)) (2 ^ k) = true) ∧
    IsAdmin (AddRole s SESSUSR__ADMIN) = true := by
  have key : ∀ (r m : Nat), m ≠ 0 → ((r ||| m) &&& m != 0) = true := by
    intro r m hm
    have e : (r ||| m) &&& m = m := by
      apply Nat.eq_of_testBit_eq
      intro i
      simp only [Nat.testBit_and, Nat.testBit_or]
      cases r.testBit i <;> cases m.testBit i <;> rfl
    rw [e]
    simpa using hm
  refine ⟨key _ _ hb, fun k => key _ _ (by positivity), key _ _ (by decide)⟩

theorem AddRole_IsRole_witness :
    SESSUSR__USER ≠ 0 ∧
    (IsRole (AddRole { Role := 4 } SESSUSR__USER) SESSUSR__USER = true ∧
     (∀ k : Nat, IsRole (AddRole { Role := 4 } (2 ^ k)) (2 ^ k) = true) ∧
     IsAdmin (AddRole { Role := 4 } SESSUSR__ADMIN) = true) :=
  ⟨by decide, AddRole_IsRole { Role := 4 } SESSUSR__USER (by decide)⟩

/-- `AddRole` stays within 64 bits when the role and the mask are `uint64` values. -/
theorem AddRole_lt (s : SessionUser) (b : Nat) (hs : s.Role < 2 ^ 64) (hb : b < 2 ^ 64) :
    (AddRole s b).Role < 2 ^ 64 :=
  Nat.or_lt_two_pow hs hb

/-- Sample evaluations of the embedding of `os.ExpandEnv`, traced by hand on
Go's `os.Expand`: a brace reference, a bare name ended by a non-alphanumeric, a
trailing dollar sign, an empty pair of braces, an unclosed brace, a special
variable, and a dollar sign followed by a character that starts no name. -/
theorem ExpandEnv_samples :
    ExpandEnv envHostPort "${TEST_HOST_PORT}" = "9090" ∧
    ExpandEnv envHostPort "a$TEST_HOST_PORT-${TEST_HOST_PORT}$" = "a9090-9090$" ∧
    ExpandEnv envHostPort "prefix-${UNSET}" = "prefix-" ∧
    ExpandEnv envHostPort "$\x7b\x7dx$\x7b" = "x" ∧
    ExpandEnv envHostPort "${1}x$$y$%" = "xy$%" := by
  decide

/-! ## Removing roles and the frame of the role operations -/

theorem testBit_clear_mask (b i : Nat) :
    ((2 ^ 64 - 1) ^^^ b).testBit i = (decide (i < 64) != b.testBit i) := by
  rw [Nat.testBit_xor, Nat.testBit_two_pow_sub_one]

/-- `RemoveRole` stays within 64 bits when the role is a `uint64` value. -/
theorem RemoveRole_lt (s : SessionUser) (b : Nat) (hs : s.Role < 2 ^ 64) :
    (RemoveRole s b).Role < 2 ^ 64 :=
  Nat.lt_of_le_of_lt Nat.and_le_left hs

/-- C11: for every session user, whatever its `Role`, and every `uint64` mask
`b`, `IsRole b` is false after `RemoveRole b`, whether or not bits of `b` were
set before. -/
theorem RemoveRole_IsRole (s : SessionUser) (b : Nat) (hb : b < 2 ^ 64) :
    IsRole (RemoveRole s b) b = false := by
  have e : (s.Role &&& ((2 ^ 64 - 1) ^^^ b)) &&& b = 0 := by
    apply Nat.eq_of_testBit_eq
    intro i
    simp only [Nat.testBit_and, testBit_clear_mask, Nat.zero_testBit]
    by_cases hi : i < 64
    · cases s.Role.testBit i <;> cases b.testBit i <;> simp [hi]
    · have hbi : b.testBit i = false :=
        Nat.testBit_eq_false_of_lt
          (Nat.lt_of_lt_of_le hb (Nat.pow_le_pow_right (by decide) (Nat.le_of_not_lt hi)))
      simp [hbi]
  simp only [IsRole, RemoveRole, e]
  rfl

theorem RemoveRole_IsRole_witness :
    (3 : Nat) < 2 ^ 64 ∧
    IsRole (RemoveRole { Role := 7 } 3) 3 = false ∧
    IsRole (RemoveRole { Role := 4 } 3) 3 = false :=
  ⟨by decide, RemoveRole_IsRole { Role := 7 } 3 (by decide),
    RemoveRole_IsRole { Role := 4 } 3 (by decide)⟩

/-- C12: for a session user whose `Role` is a `uint64` value and masks `b`, `c`
with no bit in common, `IsRole c` has the same value after `AddRole b` and after
`RemoveRole b` as before; both operations change no field other than `Role`. -/
theorem Role_frame (s : SessionUser) (b c : Nat) (hs : s.Role < 2 ^ 64)
    (hbc : b &&& c = 0) :
    IsRole (AddRole s b) c = IsRole s c ∧
    IsRole (RemoveRole s b) c = IsRole s c ∧
    AddRole s b = { s with Role := s.Role ||| b } ∧
    RemoveRole s b = { s with Role := (RemoveRole s b).Role } ∧
    (∀ r : Nat, ({ AddRole s b with Role := r } : SessionUser) = { s with Role := r }) ∧
    (∀ r : Nat, ({ RemoveRole s b with Role := r } : SessionUser) = { s with Role := r }) := by
  have hbit : ∀ i, (b.testBit i && c.testBit i) = false := by
    intro i
    have := congrArg (fun n => n.testBit i) hbc
    simpa [Nat.testBit_and] using this
  have e1 : (s.Role ||| b) &&& c = s.Role &&& c := by
    apply Nat.eq_of_testBit_eq
    intro i
    have h := hbit i
    simp only [Nat.testBit_and, Nat.testBit_or]
    revert h
    cases s.Role.testBit i <;> cases b.testBit i <;> cases c.testBit i <;> simp
  have e2 : (s.Role &&& ((2 ^ 64 - 1) ^^^ b)) &&& c = s.Role &&& c := by
    apply Nat.eq_of_testBit_eq
    intro i
    have h := hbit i
    simp only [Nat.testBit_and, testBit_clear_mask]
    by_cases hi : i < 64
    · revert h
      cases s.Role.testBit i <;> cases b.testBit i <;> cases c.testBit i <;> simp [hi]
    · have hri : s.Role.testBit i = false :=
        Nat.testBit_eq_false_of_lt
          (Nat.lt_of_lt_of_le hs (Nat.pow_le_pow_right (by decide) (Nat.le_of_not_lt hi)))
      simp [hri]
  refine ⟨?_, ?_, rfl, rfl, fun _ => rfl, fun _ => rfl⟩
  · simp only [IsRole, AddRole, e1]
  · simp only [IsRole, RemoveRole, e2]

theorem Role_frame_witness :
    (SessionUser.Role { Role := 5 } < 2 ^ 64 ∧ (1 : Nat) &&& 4 = 0) ∧
    (IsRole (AddRole { Role := 5 } 1) 4 = IsRole { Role := 5 } 4 ∧
     IsRole (RemoveRole { Role := 5 } 1) 4 = IsRole { Role := 5 } 4) :=
  ⟨⟨by decide, by decide⟩,
    (Role_frame { Role := 5 } 1 4 (by decide) (by decide)).1,
    (Role_frame { Role := 5 } 1 4 (by decide) (by decide)).2.1⟩

/-! ## getUser -/

/-- What `getUser` returns on every kind of stored value: the record itself for
a pointer to a record, the zero-value `SessionUser` when the key is absent or
holds a value of another type, and a panic exactly for the nil `*SessionUser`;
the zero value is unauthenticated, has no role, is never a valid session and
is not an admin. -/
theorem getUser_cases (session : Session) :
    (∀ u : SessionUser, session.Get = some (.sessionUser (some u)) →
      getUser session = .ok u) ∧
    (session.Get = none → getUser session = .ok {}) ∧
    (∀ t : String, session.Get = some (.other t) → getUser session = .ok {}) ∧
    ((∃ p : String, getUser session = .error p) ↔
      session.Get = some (.sessionUser none)) ∧
    (({} : SessionUser).Authenticated = false ∧ ({} : SessionUser).Role = 0 ∧
      (∀ now : Time, SessionIsValid now {} = false) ∧ IsAdmin {} = false) := by
  refine ⟨?_, ?_, ?_, ?_, rfl, rfl, fun _ => rfl, by decide⟩
  · intro u h; simp [getUser, h]
  · intro h; simp [getUser, h]
  · intro t h; simp [getUser, h]
  · unfold getUser
    rcases hg : session.Get with _ | ⟨_ | u⟩ | t <;> simp

/-- C13 fails on the code: on a session whose value under the auth-user key is
a nil `*SessionUser`, the type assertion succeeds, the fallback to the zero
value is skipped, and `getUser` panics on the dereference instead of
returning a record. -/
theorem getUser_nil_pointer_panics :
    sessionNilUser.Get = some (.sessionUser none) ∧
    getUser sessionNilUser = .error nilDereference ∧
    ¬ ∃ u : SessionUser, getUser sessionNilUser = .ok u := by
  refine ⟨rfl, rfl, ?_⟩
  intro ⟨u, hu⟩
  have h : getUser sessionNilUser = .error nilDereference := rfl
  rw [h] at hu
  cases hu

/-! ## Flash messages -/

theorem addFlash_ok (msg : String) (session : Session)
    (h : session.saveError
      { session.values with flashes := session.values.flashes ++ [.str msg] } = none) :
    addFlash msg session =
      .ok { session with
        values := { session.values with flashes := session.values.flashes ++ [.str msg] },
        cookie := some
          { session.values with flashes := session.values.flashes ++ [.str msg] } } := by
  simp only [addFlash, Session.AddFlash, Session.Save, h]

theorem addFlash_panics (msg : String) (session : Session) (err : String)
    (h : session.saveError
      { session.values with flashes := session.values.flashes ++ [.str msg] } = some err) :
    addFlash msg session = .error err := by
  simp only [addFlash, Session.AddFlash, Session.Save, h]

theorem getFlashes_ok (session : Session)
    (h : session.saveError { session.values with flashes := [] } = none) :
    getFlashes session =
      .ok (session.values.flashes.map FlashValue.format,
        { session with
          values := { session.values with flashes := [] },
          cookie := some { session.values with flashes := [] } }) := by
  simp only [getFlashes, Session.Flashes, Session.Save, h]

theorem getFlashes_panics (session : Session) (err : String)
    (h : session.saveError { session.values with flashes := [] } = some err) :
    getFlashes session = .error err := by
  simp only [getFlashes, Session.Flashes, Session.Save, h]

theorem addFlash_saved (msg : String) (session : Session)
    (h : session.saveError
      { session.values with flashes := session.values.flashes ++ [.str msg] } = none) :
    ∃ s1 : Session, addFlash msg session = .ok s1 ∧
      s1.values = { session.values with flashes := session.values.flashes ++ [.str msg] } ∧
      s1.cookie = some s1.values ∧ s1.saveError = session.saveError :=
  ⟨_, addFlash_ok msg session h, rfl, rfl, rfl⟩

theorem getFlashes_saved (session : Session)
    (h : session.saveError { session.values with flashes := [] } = none) :
    ∃ s1 : Session,
      getFlashes session = .ok (session.values.flashes.map FlashValue.format, s1) ∧
      s1.values = { session.values with flashes := [] } ∧
      s1.cookie = some s1.values ∧ s1.saveError = session.saveError :=
  ⟨_, getFlashes_ok session h, rfl, rfl, rfl⟩

theorem longMessage_length : longMessage.length = 5000 := by
  simp only [longMessage, String.length, List.length_replicate]

theorem longMessage_ne_empty : longMessage ≠ "" := by
  intro h
  have := congrArg String.length h
  rw [longMessage_length] at this
  exact absurd this (by decide)

/-- C14, as stated, fails: over a store that refuses values too long for the
cookie, `addFlash` of a 5000-character message panics with the store's error
and returns no session with the message appended. -/
theorem flash_queue_counterexample :
    addFlash longMessage sessionSizeLimited = .error "securecookie: the value is too long" ∧
    ¬ (∀ (session : Session) (m : String), ∃ s1 : Session,
        addFlash m session = .ok s1 ∧
        s1.values.flashes = session.values.flashes ++ [.str m]) := by
  have hp : addFlash longMessage sessionSizeLimited
      = .error "securecookie: the value is too long" := by
    apply addFlash_panics
    simp [sessionSizeLimited, FlashValue.format, longMessage_length]
  refine ⟨hp, ?_⟩
  intro h
  obtain ⟨s1, h1, _⟩ := h sessionSizeLimited longMessage
  rw [hp] at h1
  cases h1

/-- C14, amended: over a session modelled as a state holding an ordered flash
queue and a store that may refuse a save: when the store saves the values in
question without error, `addFlash m` appends `m` at the end of the queue and
persists the session, and `getFlashes` returns the pending messages in queue
order, each formatted as a string, and leaves the queue empty, so a second
`getFlashes` returns the empty list, and on an empty queue `addFlash m1`,
`addFlash m2`, `getFlashes` returns `[m1, m2]`; when the store refuses the
save, `addFlash` and `getFlashes` panic with the store's error. -/
theorem flash_queue (session : Session) (m m1 m2 : String) :
    (session.saveError
        { session.values with flashes := session.values.flashes ++ [.str m] } = none →
      ∃ s1 : Session, addFlash m session = .ok s1 ∧
        s1.values.flashes = session.values.flashes ++ [.str m] ∧
        s1.values.authUser = session.values.authUser ∧ s1.cookie = some s1.values) ∧
    (session.saveError { session.values with flashes := [] } = none →
      ∃ s1 s2 : Session,
        getFlashes session = .ok (session.values.flashes.map FlashValue.format, s1) ∧
        s1.values.flashes = [] ∧ s1.values.authUser = session.values.authUser ∧
        s1.cookie = some s1.values ∧
        getFlashes s1 = .ok ([], s2) ∧ s2.values.flashes = []) ∧
    (session.values.flashes = [] →
      session.saveError { session.values with flashes := [.str m1] } = none →
      session.saveError { session.values with flashes := [.str m1, .str m2] } = none →
      session.saveError { session.values with flashes := [] } = none →
      ∃ s1 s2 s3 : Session, addFlash m1 session = .ok s1 ∧ addFlash m2 s1 = .ok s2 ∧
        getFlashes s2 = .ok ([m1, m2], s3) ∧ s3.values.flashes = []) ∧
    (∀ err : String,
      session.saveError
        { session.values with flashes := session.values.flashes ++ [.str m] } = some err →
      addFlash m session = .error err) ∧
    (∀ err : String, session.saveError { session.values with flashes := [] } = some err →
      getFlashes session = .error err) := by
  refine ⟨?_, ?_, ?_, fun err h => addFlash_panics m session err h,
    fun err h => getFlashes_panics session err h⟩
  · intro h
    obtain ⟨s1, h1, hv, hc, _⟩ := addFlash_saved m session h
    exact ⟨s1, h1, by rw [hv], by rw [hv], hc⟩
  · intro h
    obtain ⟨s1, h1, hv, hc, hs⟩ := getFlashes_saved session h
    obtain ⟨s2, h2, hv2, _, _⟩ := getFlashes_saved s1 (by rw [hs, hv]; exact h)
    rw [hv] at h2
    exact ⟨s1, s2, h1, by rw [hv], by rw [hv], hc, h2, by rw [hv2]⟩
  · intro hempty h1 h12 h0
    obtain ⟨s1, e1, hv1, _, hs1⟩ := addFlash_saved m1 session (by rw [hempty]; exact h1)
    have hv1' : s1.values = { session.values with flashes := [.str m1] } := by
      rw [hv1, hempty]; rfl
    obtain ⟨s2, e2, hv2, _, hs2⟩ := addFlash_saved m2 s1 (by rw [hs1, hv1']; exact h12)
    have hv2' : s2.values = { session.values with flashes := [.str m1, .str m2] } := by
      rw [hv2, hv1']; rfl
    obtain ⟨s3, e3, hv3, _, _⟩ := getFlashes_saved s2 (by rw [hs2, hs1, hv2']; exact h0)
    rw [hv2'] at e3
    exact ⟨s1, s2, s3, e1, e2, e3, by rw [hv3]⟩

theorem flash_queue_witness :
    sessionTwoFlashes.saveError { sessionTwoFlashes.values with flashes := [] } = none ∧
    (∃ s1 s2 : Session,
      getFlashes sessionTwoFlashes = .ok (["first", "42"], s1) ∧
      s1.values.flashes = [] ∧ s1.values.authUser = sessionTwoFlashes.values.authUser ∧
      s1.cookie = some s1.values ∧
      getFlashes s1 = .ok ([], s2) ∧ s2.values.flashes = []) :=
  ⟨rfl, (flash_queue sessionTwoFlashes "m" "m1" "m2").2.1 rfl⟩

/-! ## Session store options -/

/-- C17: the options built by `instantiateSessionStore` have `Secure` set exactly
when TLS is enabled (`SSLDisabled = false`), `HttpOnly` true, `Path` equal to
`/` and `MaxAge` equal to the configured `SecureCookieMaxAge`; the store is
built from the two decoded keys. -/
theorem instantiateSessionStore_options (cfg : AppConfig) :
    ((instantiateSessionStore cfg).options.Secure = true ↔ cfg.SSLDisabled = false) ∧
    (instantiateSessionStore cfg).options.HttpOnly = true ∧
    (instantiateSessionStore cfg).options.Path = "/" ∧
    (instantiateSessionStore cfg).options.MaxAge = cfg.SecureCookieMaxAge ∧
    (instantiateSessionStore cfg).options.Domain = "" ∧
    (instantiateSessionStore cfg).signingKey = cfg.SecureCookieSigningKey ∧
    (instantiateSessionStore cfg).encryptionKey = cfg.SecureCookieEncryptionKey := by
  refine ⟨?_, rfl, rfl, rfl, rfl, rfl, rfl⟩
  simp [instantiateSessionStore]

/-! ## Logger level -/

/-- C19: the level selection of `SetupLogger` is total over the integers: 1
gives Error, 2 gives Warn, 4 and 5 give Debug and every other value gives Info;
hence for log levels `a <= b` within 1..5 the threshold chosen for `b` is not
above the one chosen for `a`, and every record emitted under `a` is emitted
under `b`. -/
theorem SetupLoggerLevel_total :
    SetupLoggerLevel 1 = LevelError ∧ SetupLoggerLevel 2 = LevelWarn ∧
    SetupLoggerLevel 4 = LevelDebug ∧ SetupLoggerLevel 5 = LevelDebug ∧
    (∀ n : Int, n ≠ 1 → n ≠ 2 → n ≠ 4 → n ≠ 5 → SetupLoggerLevel n = LevelInfo) ∧
    (∀ a b : Int, 1 ≤ a → a ≤ b → b ≤ 5 →
      SetupLoggerLevel b ≤ SetupLoggerLevel a ∧
      ∀ l : Int, Enabled (SetupLoggerLevel a) l = true → Enabled (SetupLoggerLevel b) l = true) := by
  refine ⟨rfl, rfl, rfl, rfl, ?_, ?_⟩
  · intro n h1 h2 h4 h5
    simp [SetupLoggerLevel, h1, h2, h4, h5]
  · intro a b ha hab hb
    have hle : SetupLoggerLevel b ≤ SetupLoggerLevel a := by
      have ha5 : a ≤ 5 := le_trans hab hb
      have hb1 : 1 ≤ b := le_trans ha hab
      interval_cases a <;> interval_cases b <;> decide
    refine ⟨hle, ?_⟩
    intro l hl
    simp only [Enabled, decide_eq_true_eq, ge_iff_le] at hl ⊢
    exact le_trans hle hl

theorem SetupLoggerLevel_total_witness :
    SetupLoggerLevel 3 = LevelInfo ∧ SetupLoggerLevel 0 = LevelInfo ∧
    SetupLoggerLevel (-7) = LevelInfo ∧ SetupLoggerLevel 6 = LevelInfo ∧
    SetupLoggerLevel 3 ≤ SetupLoggerLevel 2 :=
  ⟨SetupLoggerLevel_total.2.2.2.2.1 3 (by decide) (by decide) (by decide) (by decide),
    SetupLoggerLevel_total.2.2.2.2.1 0 (by decide) (by decide) (by decide) (by decide),
    SetupLoggerLevel_total.2.2.2.2.1 (-7) (by decide) (by decide) (by decide) (by decide),
    SetupLoggerLevel_total.2.2.2.2.1 6 (by decide) (by decide) (by decide) (by decide),
    (SetupLoggerLevel_total.2.2.2.2.2 2 3 (by decide) (by decide) (by decide)).1⟩

/-! ## The books handlers -/

/-- On a session whose auth-user value is a nil `*SessionUser` the handler
panics in `getUser` before anything else happens. -/
theorem route_Books_Show_nil_user_panics (dso : DataSourceOrchestration) (id : String) :
    route_Books_Show dso sessionNilUser id = .error nilDereference := by
  have hu : getUser sessionNilUser = .error nilDereference := rfl
  simp only [route_Books_Show, hu]

/-- C16, as stated, fails: with all three fields present and a title of 5000
characters, the success message is too long for the store, `addFlash` panics,
and the create handler answers no redirect. -/
theorem route_Books_Create_POST_counterexample :
    (PostForm formLongTitle "title" ≠ "" ∧ PostForm formLongTitle "author" ≠ "" ∧
      PostForm formLongTitle "isbn" ≠ "") ∧
    route_Books_Create_POST sessionSizeLimited formLongTitle
      = .error "securecookie: the value is too long" ∧
    ¬ (∀ (session : Session) (form : String → Option String),
        ∃ (location : String) (s1 : Session),
          route_Books_Create_POST session form = .ok (.Redirect 303 location, s1)) := by
  have ht : PostForm formLongTitle "title" = longMessage := rfl
  have ha : PostForm formLongTitle "author" = "Test Author" := rfl
  have hi : PostForm formLongTitle "isbn" = "978-1234567890" := rfl
  have hne : ¬ (PostForm formLongTitle "title" = "" ∨ PostForm formLongTitle "author" = "" ∨
      PostForm formLongTitle "isbn" = "") := by
    rw [ht, ha, hi]
    intro h
    rcases h with h | h | h
    · exact longMessage_ne_empty h
    · exact absurd h (by decide)
    · exact absurd h (by decide)
  have hp : route_Books_Create_POST sessionSizeLimited formLongTitle
      = .error "securecookie: the value is too long" := by
    simp only [route_Books_Create_POST]
    rw [if_neg hne, ht]
    have hx : sessionSizeLimited.saveError
        { sessionSizeLimited.values with
          flashes := sessionSizeLimited.values.flashes ++
            [.str ("Book '" ++ longMessage ++ "' created successfully")] }
        = some "securecookie: the value is too long" := by
      simp [sessionSizeLimited, FlashValue.format, String.length_append, longMessage_length]
      decide
    rw [addFlash_panics _ sessionSizeLimited "securecookie: the value is too long" hx]
  refine ⟨⟨?_, ?_, ?_⟩, hp, ?_⟩
  · exact fun h => hne (Or.inl h)
  · exact fun h => hne (Or.inr (Or.inl h))
  · exact fun h => hne (Or.inr (Or.inr h))
  · intro h
    obtain ⟨location, s1, h1⟩ := h sessionSizeLimited formLongTitle
    rw [hp] at h1
    cases h1

/-- C16, amended: for every triple of form values, when the store saves the
session with the new flash message the create handler answers a 303 redirect
and queues exactly one flash message: the redirect goes to `/books/new` with
`All fields are required` if and only if at least one of title, author and
isbn is empty or missing, and otherwise to `/books` with
`Book '<title>' created successfully`; when the store refuses that save, the
handler panics with the store's error and answers no redirect. -/
theorem route_Books_Create_POST_spec (session : Session) (form : String → Option String) :
    (session.saveError
        { session.values with
          flashes := session.values.flashes ++
            [.str (if PostForm form "title" = "" ∨ PostForm form "author" = "" ∨
                PostForm form "isbn" = "" then "All fields are required"
              else "Book '" ++ PostForm form "title" ++ "' created successfully")] } = none →
      ∃ (location msg : String) (s1 : Session),
        route_Books_Create_POST session form = .ok (.Redirect 303 location, s1) ∧
        s1.values.flashes = session.values.flashes ++ [.str msg] ∧
        ((location = "/books/new" ∧ msg = "All fields are required") ↔
          (PostForm form "title" = "" ∨ PostForm form "author" = "" ∨
            PostForm form "isbn" = "")) ∧
        ((location = "/books" ∧
            msg = "Book '" ++ PostForm form "title" ++ "' created successfully") ↔
          ¬ (PostForm form "title" = "" ∨ PostForm form "author" = "" ∨
            PostForm form "isbn" = "")) ∧
        (location = "/books/new" ↔
          (PostForm form "title" = "" ∨ PostForm form "author" = "" ∨
            PostForm form "isbn" = ""))) ∧
    (∀ err : String,
      session.saveError
        { session.values with
          flashes := session.values.flashes ++
            [.str (if PostForm form "title" = "" ∨ PostForm form "author" = "" ∨
                PostForm form "isbn" = "" then "All fields are required"
              else "Book '" ++ PostForm form "title" ++ "' created successfully")] }
        = some err →
      route_Books_Create_POST session form = .error err) := by
  by_cases hv : PostForm form "title" = "" ∨ PostForm form "author" = "" ∨
      PostForm form "isbn" = ""
  · simp only [hv, if_true]
    refine ⟨?_, ?_⟩
    · intro hsave
      obtain ⟨s1, ha, hv1, _, _⟩ := addFlash_saved "All fields are required" session hsave
      refine ⟨"/books/new", "All fields are required", s1, ?_, by rw [hv1], ?_, ?_, ?_⟩
      · simp only [route_Books_Create_POST, hv, if_true, ha, StatusSeeOther]
      · simp
      · simp only [not_true_eq_false, iff_false, not_and]
        intro h
        exact absurd h (by decide)
      · simp
    · intro err herr
      simp only [route_Books_Create_POST, hv, if_true,
        addFlash_panics "All fields are required" session err herr]
  · simp only [hv, if_false]
    refine ⟨?_, ?_⟩
    · intro hsave
      obtain ⟨s1, ha, hv1, _, _⟩ :=
        addFlash_saved ("Book '" ++ PostForm form "title" ++ "' created successfully")
          session hsave
      refine ⟨"/books", _, s1, ?_, by rw [hv1], ?_, ?_, ?_⟩
      · simp only [route_Books_Create_POST, hv, if_false, ha, StatusSeeOther]
      · simp only [iff_false, not_and]
        intro h
        exact absurd h (by decide)
      · simp
      · simp only [iff_false]
        decide
    · intro err herr
      simp only [route_Books_Create_POST, hv, if_false,
        addFlash_panics _ session err herr]

theorem route_Books_Create_POST_spec_witness :
    (∃ s1 : Session,
      route_Books_Create_POST sessionTwoFlashes formValid = .ok (.Redirect 303 "/books", s1) ∧
      s1.values.flashes =
        sessionTwoFlashes.values.flashes ++ [.str "Book 'Test Book' created successfully"]) ∧
    (∃ s1 : Session,
      route_Books_Create_POST sessionTwoFlashes formMissingTitle =
        .ok (.Redirect 303 "/books/new", s1) ∧
      s1.values.flashes =
        sessionTwoFlashes.values.flashes ++ [.str "All fields are required"]) := by
  refine ⟨?_, ?_⟩
  · obtain ⟨location, msg, s1, h, hf, _, h2, _⟩ :=
      (route_Books_Create_POST_spec sessionTwoFlashes formValid).1 rfl
    have hv : ¬ (PostForm formValid "title" = "" ∨ PostForm formValid "author" = "" ∨
        PostForm formValid "isbn" = "") := by decide
    obtain ⟨hl, hm⟩ := h2.mpr hv
    subst hl
    subst hm
    exact ⟨s1, h, hf⟩
  · obtain ⟨location, msg, s1, h, hf, h1, _, _⟩ :=
      (route_Books_Create_POST_spec sessionTwoFlashes formMissingTitle).1 rfl
    have hv : PostForm formMissingTitle "title" = "" ∨
        PostForm formMissingTitle "author" = "" ∨ PostForm formMissingTitle "isbn" = "" :=
      Or.inl (by decide)
    obtain ⟨hl, hm⟩ := h1.mpr hv
    subst hl
    subst hm
    exact ⟨s1, h, hf⟩

/-! ## Placeholders as keys -/

theorem placeholder_data (VAR : String) :
    (placeholder VAR).data = '$' :: '{' :: (VAR.data ++ ['}']) := by
  simp [placeholder, String.data_append]

theorem placeholder_ne_empty (VAR : String) : placeholder VAR ≠ "" := by
  intro h
  have := congrArg String.data h
  rw [placeholder_data] at this
  cases this

theorem DecodeString_placeholder (VAR : String) :
    DecodeString (placeholder VAR) = .error (.InvalidByteError '$') := by
  have h : fromHexChar '$' = none := by decide
  unfold DecodeString
  rw [placeholder_data]
  cases hv : VAR.data ++ ['}'] with
  | nil => simp at hv
  | cons c t => simp [Decode, h]

theorem ParseSecureKeys_ok_of_valid (a : AppConfig) (sb eb : List Nat)
    (hd1 : DecodeString a.SecureCookieSigningKeyHex = .ok sb) (hl1 : sb.length = 64)
    (hd2 : DecodeString a.SecureCookieEncryptionKeyHex = .ok eb) (hl2 : eb.length = 32) :
    ParseSecureKeys a =
      .ok { a with SecureCookieSigningKey := sb, SecureCookieEncryptionKey := eb } := by
  rw [ParseSecureKeys_of_signing_ok a sb hd1 hl1]
  have h0 : a.SecureCookieEncryptionKeyHex ≠ "" := by
    intro h
    rw [h] at hd2
    have : eb = [] := by
      simp [DecodeString, Decode] at hd2
      exact hd2
    rw [this] at hl2
    simp at hl2
  simp only [h0, if_false, hd2, ne_eq, hl2, not_true_eq_false]

theorem ParseSecureKeys_exits_on_signing_decode (a : AppConfig) (err : HexError)
    (h0 : a.SecureCookieSigningKeyHex ≠ "")
    (hd : DecodeString a.SecureCookieSigningKeyHex = .error err) :
    ParseSecureKeys a = .error ⟨.signingKeyDecode err, a⟩ := by
  simp only [ParseSecureKeys, h0, if_false, hd]

theorem ParseSecureKeys_exits_on_encryption_decode (a : AppConfig) (err : HexError)
    (h0 : a.SecureCookieEncryptionKeyHex ≠ "")
    (hd : DecodeString a.SecureCookieEncryptionKeyHex = .error err) :
    ∃ x : Exited, ParseSecureKeys a = .error x ∧
      (x.point.onSigningKey = true ∨ x.point = .encryptionKeyDecode err) := by
  by_cases hs0 : a.SecureCookieSigningKeyHex = ""
  · refine ⟨⟨.signingKeyMissing, a⟩, ?_, Or.inl rfl⟩
    simp only [ParseSecureKeys, hs0, if_true]
  · cases hsd : DecodeString a.SecureCookieSigningKeyHex with
    | error e1 =>
      exact ⟨⟨.signingKeyDecode e1, a⟩, ParseSecureKeys_exits_on_signing_decode a e1 hs0 hsd,
        Or.inl rfl⟩
    | ok sb =>
      by_cases hl : sb.length = 64
      · rw [ParseSecureKeys_of_signing_ok a sb hsd hl]
        simp only [h0, if_false, hd]
        exact ⟨⟨.encryptionKeyDecode err, { a with SecureCookieSigningKey := sb }⟩, rfl,
          Or.inr rfl⟩
      · refine ⟨⟨.signingKeyLength, a⟩, ?_, Or.inl rfl⟩
        simp only [ParseSecureKeys, hs0, if_false, hsd, ne_eq, hl, not_false_eq_true, if_true]

/-- A key field resolves to `h` when it is the placeholder of a variable set to
`h`, or is the literal `h` without a dollar sign; `ParseEnvVariables` then
leaves `h` in the field, provided `h` is not empty. -/
theorem ParseEnvVariables_resolves (f : EnvField) (env : Env) (a : AppConfig) (V h : String)
    (hne : h ≠ "")
    (hr : (f.get a = placeholder V ∧ V ≠ "" ∧ '}' ∉ V.data ∧ env V = some h) ∨
      (f.get a = h ∧ '$' ∉ h.data)) :
    f.get (ParseEnvVariables env a) = h := by
  have hx : ExpandEnv env (f.get a) = h := by
    rcases hr with ⟨hf, hV, hb, hset⟩ | ⟨hf, hd⟩
    · have hlen : V.length ≠ 0 := fun hh => hV ((String_length_eq_zero V).mp hh)
      rw [hf, ExpandEnv_placeholder env V hb]
      simp [Getenv, hlen, hset]
    · rw [hf]
      exact ExpandEnv_no_dollar env h hd
  rw [ParseEnvVariables_get, hx]
  simp [hne]

theorem ParseEnvVariables_keeps_unset_placeholder (f : EnvField) (env : Env) (a : AppConfig)
    (VAR : String) (hbrace : '}' ∉ VAR.data) (hunset : env VAR = none ∨ env VAR = some "")
    (hf : f.get a = placeholder VAR) :
    f.get (ParseEnvVariables env a) = placeholder VAR := by
  have hx : ExpandEnv env (f.get a) = "" := by
    rw [hf, ExpandEnv_placeholder env VAR hbrace]
    unfold Getenv
    rcases hunset with h | h <;> simp [h]
  rw [ParseEnvVariables_get, hx, hf]
  simp

theorem DecodeString_ok_ne_empty (h : String) (bs : List Nat) (n : Nat)
    (hd : DecodeString h = .ok bs) (hl : bs.length = n + 1) : h ≠ "" := by
  intro he
  rw [he] at hd
  have : bs = [] := by
    simp [DecodeString, Decode] at hd
    exact hd
  rw [this] at hl
  simp at hl

/-- C18: running `ParseEnvVariables` and then `ParseSecureKeys` on a
configuration whose signing-key or encryption-key hex field is the placeholder
of a variable that is unset or empty ends in a fatal exit (for the signing key,
the decode exit on the dollar sign of the retained placeholder); and when each
key field resolves, through its placeholder or as a literal, to valid hex of
the required length, the sequence succeeds and stores the decoded keys. -/
theorem parseEnvThenSecureKeys_placeholder (env : Env) (a : AppConfig) :
    (∀ VAR : String, '}' ∉ VAR.data → (env VAR = none ∨ env VAR = some "") →
      a.SecureCookieSigningKeyHex = placeholder VAR →
      ∃ x : Exited, parseEnvThenSecureKeys env a = .error x ∧
        x.point = .signingKeyDecode (.InvalidByteError '$')) ∧
    (∀ VAR : String, '}' ∉ VAR.data → (env VAR = none ∨ env VAR = some "") →
      a.SecureCookieEncryptionKeyHex = placeholder VAR →
      ∃ x : Exited, parseEnvThenSecureKeys env a = .error x ∧
        (x.point.onSigningKey = true ∨
          x.point = .encryptionKeyDecode (.InvalidByteError '$'))) ∧
    (∀ (V1 V2 h1 h2 : String) (s e : List Nat),
      ((a.SecureCookieSigningKeyHex = placeholder V1 ∧ V1 ≠ "" ∧ '}' ∉ V1.data ∧
          env V1 = some h1) ∨
        (a.SecureCookieSigningKeyHex = h1 ∧ '$' ∉ h1.data)) →
      DecodeString h1 = .ok s → s.length = 64 →
      ((a.SecureCookieEncryptionKeyHex = placeholder V2 ∧ V2 ≠ "" ∧ '}' ∉ V2.data ∧
          env V2 = some h2) ∨
        (a.SecureCookieEncryptionKeyHex = h2 ∧ '$' ∉ h2.data)) →
      DecodeString h2 = .ok e → e.length = 32 →
      ∃ cfg : AppConfig, parseEnvThenSecureKeys env a = .ok cfg ∧
        cfg.SecureCookieSigningKey = s ∧ cfg.SecureCookieEncryptionKey = e ∧
        cfg.SecureCookieSigningKeyHex = h1 ∧ cfg.SecureCookieEncryptionKeyHex = h2) := by
  refine ⟨?_, ?_, ?_⟩
  · intro VAR hb hu hf
    have hk := ParseEnvVariables_keeps_unset_placeholder .SecureCookieSigningKeyHex env a
      VAR hb hu hf
    simp only [EnvField.get] at hk
    unfold parseEnvThenSecureKeys
    generalize ParseEnvVariables env a = b at hk
    refine ⟨⟨.signingKeyDecode (.InvalidByteError '$'), b⟩,
      ParseSecureKeys_exits_on_signing_decode b (.InvalidByteError '$') ?_ ?_, rfl⟩
    · rw [hk]; exact placeholder_ne_empty VAR
    · rw [hk]; exact DecodeString_placeholder VAR
  · intro VAR hb hu hf
    have hk := ParseEnvVariables_keeps_unset_placeholder .SecureCookieEncryptionKeyHex env a
      VAR hb hu hf
    simp only [EnvField.get] at hk
    unfold parseEnvThenSecureKeys
    generalize ParseEnvVariables env a = b at hk
    exact ParseSecureKeys_exits_on_encryption_decode b (.InvalidByteError '$')
      (by rw [hk]; exact placeholder_ne_empty VAR)
      (by rw [hk]; exact DecodeString_placeholder VAR)
  · intro V1 V2 h1 h2 s e hr1 hd1 hl1 hr2 hd2 hl2
    have hs := ParseEnvVariables_resolves .SecureCookieSigningKeyHex env a V1 h1
      (DecodeString_ok_ne_empty h1 s 63 hd1 hl1) hr1
    have he := ParseEnvVariables_resolves .SecureCookieEncryptionKeyHex env a V2 h2
      (DecodeString_ok_ne_empty h2 e 31 hd2 hl2) hr2
    simp only [EnvField.get] at hs he
    unfold parseEnvThenSecureKeys
    generalize ParseEnvVariables env a = b at hs he
    rw [← hs] at hd1
    rw [← he] at hd2
    exact ⟨{ b with SecureCookieSigningKey := s, SecureCookieEncryptionKey := e },
      ParseSecureKeys_ok_of_valid b s e hd1 hl1 hd2 hl2, rfl, rfl, hs, he⟩

set_option maxRecDepth 100000 in
theorem parseEnvThenSecureKeys_placeholder_witness :
    (∃ x : Exited, parseEnvThenSecureKeys (fun _ => none) cfgPlaceholderKeys = .error x ∧
      x.point = .signingKeyDecode (.InvalidByteError '$')) ∧
    (∃ cfg : AppConfig, parseEnvThenSecureKeys envKeys cfgPlaceholderKeys = .ok cfg ∧
      cfg.SecureCookieSigningKey = List.replicate 64 170 ∧
      cfg.SecureCookieEncryptionKey = List.replicate 32 187 ∧
      cfg.SecureCookieSigningKeyHex = String.mk (List.replicate 128 'a') ∧
      cfg.SecureCookieEncryptionKeyHex = String.mk (List.replicate 64 'b')) :=
  ⟨(parseEnvThenSecureKeys_placeholder (fun _ => none) cfgPlaceholderKeys).1
      "SIGNING_KEY" (by decide) (Or.inl rfl) (by decide),
    (parseEnvThenSecureKeys_placeholder envKeys cfgPlaceholderKeys).2.2
      "SIGNING_KEY" "ENCRYPTION_KEY" (String.mk (List.replicate 128 'a'))
      (String.mk (List.replicate 64 'b')) (List.replicate 64 170) (List.replicate 32 187)
      (Or.inl ⟨by decide, by decide, by decide, by decide⟩) (by decide) (by decide)
      (Or.inl ⟨by decide, by decide, by decide, by decide⟩) (by decide) (by decide)⟩

/-! ## Messages of the fatal exits -/

/-- Every exit message of `ParseSecureKeys` names the configuration key it is
about, and the signing-key length message states the enforced length, 64. -/
theorem ExitPoint_message_names_key (p : ExitPoint) :
    (p.onSigningKey = true → "secure_cookie_signing_key".data <:+: p.message.data) ∧
    (p.onEncryptionKey = true → "secure_cookie_encryption_key".data <:+: p.message.data) ∧
    "64 bytes".data <:+: ExitPoint.signingKeyLength.message.data := by
  cases p <;> refine ⟨?_, ?_, by decide⟩ <;> simp only [ExitPoint.onSigningKey,
    ExitPoint.onEncryptionKey, ExitPoint.message] <;> decide

set_option maxRecDepth 100000 in
/-- C20 fails on the code: a configuration with a valid signing key and an
encryption key of 64 bytes exits on the encryption-key length check, which
enforces 32 bytes, with a message that says the key must be 64 bytes long and
does not mention 32. -/
theorem ParseSecureKeys_encryption_length_message :
    DecodeString cfgLongEncryptionKey.SecureCookieEncryptionKeyHex
      = .ok (List.replicate 64 187) ∧
    (ParseSecureKeys cfgLongEncryptionKey).toOption = none ∧
    (∃ x : Exited, ParseSecureKeys cfgLongEncryptionKey = .error x ∧
      x.point = .encryptionKeyLength ∧
      x.point.message = "Error 'secure_cookie_encryption_key' must be 64 bytes long" ∧
      "64 bytes".data <:+: x.point.message.data ∧
      ¬ ("32".data <:+: x.point.message.data)) := by
  have hs : DecodeString cfgLongEncryptionKey.SecureCookieSigningKeyHex
      = .ok (List.replicate 64 170) := by decide
  have he : DecodeString cfgLongEncryptionKey.SecureCookieEncryptionKeyHex
      = .ok (List.replicate 64 187) := by decide
  have hp : ParseSecureKeys cfgLongEncryptionKey =
      .error ⟨.encryptionKeyLength,
        { cfgLongEncryptionKey with SecureCookieSigningKey := List.replicate 64 170 }⟩ := by
    rw [ParseSecureKeys_of_signing_ok _ _ hs (by decide)]
    rw [if_neg (by decide), he]
    rfl
  refine ⟨he, by rw [hp]; rfl, _, hp, rfl, rfl, by decide, by decide⟩

end GoGinStarter
